import Mathlib

/-!
Verification development for the readme-openapi scraper (src/main.py).

The program is embedded shallowly:

* JSON values (the result of Python json parsing) are the inductive type
  `Json`; Python dicts with string keys are insertion-ordered association
  lists `Dict` with the exact update semantics of CPython dicts
  (assignment replaces the value of the first occurrence in place, or
  appends a fresh entry at the end; `update` folds assignments).
  Numbers keep their JSON lexeme; no claim compares numerals across
  distinct lexemes.
* `parse_truncated_json` is translated statement by statement from the
  source, including the character scanner; the unused `re.findall`
  expression in the source (its result `matches` is dead) is omitted.
* `json.loads` is `jsonLoads`, a recursive-descent parser of the JSON
  grammar in strict mode (control characters inside strings are
  rejected); `\uXXXX` escapes are decoded to the corresponding scalar
  (surrogate-pair combination is not modelled; no claim exercises it).
* exceptions (KeyError, TypeError/AttributeError/ValueError on wrong
  shapes, AssertionError, json.JSONDecodeError) are an `Except CrawlErr`
  result; distinct wrong-shape exceptions are collapsed into
  `CrawlErr.typeError` since the program never catches them.
-/

/-- JSON values as produced by Python json parsing. Objects are
insertion-ordered association lists, numbers keep their source lexeme. -/
inductive Json where
  | null : Json
  | bool (b : Bool) : Json
  | num (lit : String) : Json
  | str (s : String) : Json
  | arr (xs : List Json) : Json
  | obj (d : List (String × Json)) : Json
deriving Repr

mutual

/-- Decidable equality of JSON values (the deriving handler does not
support the nested occurrence of List). -/
def Json.decEq : (a b : Json) → Decidable (a = b)
  | .null, .null => isTrue rfl
  | .bool a, .bool b =>
    if h : a = b then isTrue (by rw [h]) else isFalse (fun hh => h (Json.bool.inj hh))
  | .num a, .num b =>
    if h : a = b then isTrue (by rw [h]) else isFalse (fun hh => h (Json.num.inj hh))
  | .str a, .str b =>
    if h : a = b then isTrue (by rw [h]) else isFalse (fun hh => h (Json.str.inj hh))
  | .arr xs, .arr ys =>
    match Json.decEqList xs ys with
    | isTrue h => isTrue (by rw [h])
    | isFalse h => isFalse (fun hh => h (Json.arr.inj hh))
  | .obj d, .obj e =>
    match Json.decEqPairs d e with
    | isTrue h => isTrue (by rw [h])
    | isFalse h => isFalse (fun hh => h (Json.obj.inj hh))
  | .null, .bool _ | .null, .num _ | .null, .str _ | .null, .arr _ | .null, .obj _
  | .bool _, .null | .bool _, .num _ | .bool _, .str _ | .bool _, .arr _ | .bool _, .obj _
  | .num _, .null | .num _, .bool _ | .num _, .str _ | .num _, .arr _ | .num _, .obj _
  | .str _, .null | .str _, .bool _ | .str _, .num _ | .str _, .arr _ | .str _, .obj _
  | .arr _, .null | .arr _, .bool _ | .arr _, .num _ | .arr _, .str _ | .arr _, .obj _
  | .obj _, .null | .obj _, .bool _ | .obj _, .num _ | .obj _, .str _ | .obj _, .arr _ =>
    isFalse (fun h => Json.noConfusion h)

/-- Decidable equality of JSON value lists. -/
def Json.decEqList : (xs ys : List Json) → Decidable (xs = ys)
  | [], [] => isTrue rfl
  | [], _ :: _ => isFalse (fun h => List.noConfusion h)
  | _ :: _, [] => isFalse (fun h => List.noConfusion h)
  | x :: xs, y :: ys =>
    match Json.decEq x y with
    | isFalse h => isFalse (fun hh => h (List.cons.inj hh).1)
    | isTrue h1 =>
      match Json.decEqList xs ys with
      | isTrue h2 => isTrue (by rw [h1, h2])
      | isFalse h => isFalse (fun hh => h (List.cons.inj hh).2)

/-- Decidable equality of key/value pair lists. -/
def Json.decEqPairs : (d e : List (String × Json)) → Decidable (d = e)
  | [], [] => isTrue rfl
  | [], _ :: _ => isFalse (fun h => List.noConfusion h)
  | _ :: _, [] => isFalse (fun h => List.noConfusion h)
  | (k, v) :: d, (l, w) :: e =>
    if hk : k = l then
      match Json.decEq v w with
      | isFalse h => isFalse (fun hh => h (congrArg Prod.snd (List.cons.inj hh).1))
      | isTrue hv =>
        match Json.decEqPairs d e with
        | isTrue h2 => isTrue (by rw [hk, hv, h2])
        | isFalse h => isFalse (fun hh => h (List.cons.inj hh).2)
    else isFalse (fun hh => hk (congrArg Prod.fst (List.cons.inj hh).1))

end

instance : DecidableEq Json := Json.decEq

/-- Python dict with string keys, in insertion order. -/
abbrev Dict := List (String × Json)

/-- Lookup, Python `d[k]` / `d.get(k)`: value of the first entry with the key. -/
def dget : Dict → String → Option Json
  | [], _ => none
  | p :: d, k => if p.1 = k then some p.2 else dget d k

/-- Assignment, Python `d[k] = v`: replace the value of the first entry
with the key, keeping its position, else append a fresh entry. -/
def dset : Dict → String → Json → Dict
  | [], k, v => [(k, v)]
  | p :: d, k, v => if p.1 = k then (k, v) :: d else p :: dset d k v

/-- Python `d.update(e)`: assignments folded over the entries of e in order. -/
def dupdate : Dict → List (String × Json) → Dict
  | d, [] => d
  | d, p :: e => dupdate (dset d p.1 p.2) e

/-- Value of the last entry with the key, if any. -/
def lastGet : List (String × Json) → String → Option Json
  | [], _ => none
  | p :: e, k =>
    match lastGet e k with
    | some v => some v
    | none => if p.1 = k then some p.2 else none

/-- Keys of an association list, in order. -/
def keys (d : List (String × Json)) : List String := d.map Prod.fst

/-- Python `del d[k]` guarded by `if k in d`: every entry with the key is
removed (dict keys are unique, so at most one entry is involved). -/
def ddel (d : Dict) (k : String) : Dict := d.filter (fun p => p.1 ≠ k)

/-! ## The recovery parser, src/main.py lines 11 to 92 -/

/-- Whitespace stripped by Python str.strip (ASCII part; the inputs of the
program are ASCII). -/
def pySpace (c : Char) : Bool :=
  c = ' ' || c = '\t' || c = '\n' || c = '\r' || c = '\x0b' || c = '\x0c'

/-- Python str.strip on a character list. -/
def pyStripChars (cs : List Char) : List Char :=
  ((cs.dropWhile pySpace).reverse.dropWhile pySpace).reverse

/-- State of the single left-to-right scan of parse_truncated_json:
brace and bracket depth counters, string flag, escape-pending flag,
the pair being accumulated and the finished pairs. -/
structure ScanSt where
  brace : Int
  bracket : Int
  inStr : Bool
  esc : Bool
  cur : List Char
  pairs : List (List Char)
deriving DecidableEq, Repr

/-- Body of the `for char in content` loop of parse_truncated_json,
translated branch by branch. -/
def scanStep (st : ScanSt) (c : Char) : ScanSt :=
  if st.esc then { st with esc := false, cur := st.cur ++ [c] }
  else if c = '\\' && st.inStr then { st with esc := true, cur := st.cur ++ [c] }
  else
    -- the toggle `if char == double-quote and not escape_next`; escape_next
    -- is always false at this point because a pending escape was consumed above
    let st := if c = '"' then { st with inStr := !st.inStr } else st
    if !st.inStr then
      if c = '\x7b' then { st with brace := st.brace + 1, cur := st.cur ++ [c] }
      else if c = '\x7d' then { st with brace := st.brace - 1, cur := st.cur ++ [c] }
      else if c = '[' then { st with bracket := st.bracket + 1, cur := st.cur ++ [c] }
      else if c = ']' then { st with bracket := st.bracket - 1, cur := st.cur ++ [c] }
      else if c = ',' && st.brace = 0 && st.bracket = 0 then
        let pair := pyStripChars st.cur
        if pair.contains ':' then { st with cur := [], pairs := st.pairs ++ [pair] }
        else { st with cur := [] }
      else { st with cur := st.cur ++ [c] }
    else { st with cur := st.cur ++ [c] }

/-- Initial scanner state. -/
def initSt : ScanSt := ⟨0, 0, false, false, [], []⟩

/-- Trailing-pair rule of parse_truncated_json: the last accumulated pair
joins the list when its stripped form is nonempty, it holds a colon, and
both depth counters are zero (the string flag is not inspected). -/
def scanFinish (st : ScanSt) : List (List Char) :=
  let stripped := pyStripChars st.cur
  if stripped ≠ [] ∧ st.cur.contains ':' ∧ st.brace = 0 ∧ st.bracket = 0
  then st.pairs ++ [stripped] else st.pairs

/-- Preprocessing of parse_truncated_json: strip surrounding whitespace,
then one leading open brace, then one trailing close brace. -/
def contentOf (s : String) : List Char :=
  let cs := pyStripChars s.data
  let cs := match cs with
    | '\x7b' :: rest => rest
    | other => other
  if cs.getLast? = some '\x7d' then cs.dropLast else cs

/-- Candidate pair list produced by the scanner of parse_truncated_json. -/
def scanPairs (s : String) : List (List Char) :=
  scanFinish ((contentOf s).foldl scanStep initSt)

/-! ### jsonLoads, the model of json.loads -/

/-- JSON whitespace. -/
def jsWs (c : Char) : Bool := c = ' ' || c = '\t' || c = '\n' || c = '\r'

/-- Skip JSON whitespace. -/
def skipWs : List Char → List Char
  | [] => []
  | c :: cs => if jsWs c then skipWs cs else c :: cs

/-- Value of one hex digit. -/
def hexVal (c : Char) : Option Nat :=
  if '0' ≤ c ∧ c ≤ '9' then some (c.toNat - '0'.toNat)
  else if 'a' ≤ c ∧ c ≤ 'f' then some (c.toNat - 'a'.toNat + 10)
  else if 'A' ≤ c ∧ c ≤ 'F' then some (c.toNat - 'A'.toNat + 10)
  else none

/-- String body parser, called after the opening quote: standard JSON
escapes, strict rejection of raw control characters. -/
def pStr : Nat → List Char → List Char → Option (String × List Char)
  | 0, _, _ => none
  | fuel + 1, cs, acc =>
    match cs with
    | [] => none
    | c :: rest =>
      if c = '"' then some (⟨acc⟩, rest)
      else if c = '\\' then
        match rest with
        | [] => none
        | e :: rest2 =>
          if e = '"' then pStr fuel rest2 (acc ++ ['"'])
          else if e = '\\' then pStr fuel rest2 (acc ++ ['\\'])
          else if e = '/' then pStr fuel rest2 (acc ++ ['/'])
          else if e = 'b' then pStr fuel rest2 (acc ++ ['\x08'])
          else if e = 'f' then pStr fuel rest2 (acc ++ ['\x0c'])
          else if e = 'n' then pStr fuel rest2 (acc ++ ['\n'])
          else if e = 'r' then pStr fuel rest2 (acc ++ ['\r'])
          else if e = 't' then pStr fuel rest2 (acc ++ ['\t'])
          else if e = 'u' then
            match rest2 with
            | h1 :: h2 :: h3 :: h4 :: rest3 =>
              match hexVal h1, hexVal h2, hexVal h3, hexVal h4 with
              | some a, some b, some c3, some d4 =>
                  pStr fuel rest3 (acc ++ [Char.ofNat (((a * 16 + b) * 16 + c3) * 16 + d4)])
              | _, _, _, _ => none
            | _ => none
          else none
      else if c.toNat < 32 then none
      else pStr fuel rest (acc ++ [c])

/-- Number lexeme: fraction and exponent tails after the integer part. -/
def pNumTail (lit : List Char) (cs : List Char) : String × List Char :=
  let fr :=
    match cs with
    | '.' :: r =>
      match r.takeWhile Char.isDigit with
      | [] => (lit, cs)
      | ds => (lit ++ '.' :: ds, r.dropWhile Char.isDigit)
    | _ => (lit, cs)
  let lit1 := fr.1
  let cs1 := fr.2
  let ex :=
    match cs1 with
    | e :: r =>
      if e = 'e' ∨ e = 'E' then
        match r with
        | s :: r2 =>
          if s = '+' ∨ s = '-' then
            match r2.takeWhile Char.isDigit with
            | [] => (lit1, cs1)
            | ds => (lit1 ++ e :: s :: ds, r2.dropWhile Char.isDigit)
          else
            match r.takeWhile Char.isDigit with
            | [] => (lit1, cs1)
            | ds => (lit1 ++ e :: ds, r.dropWhile Char.isDigit)
        | [] => (lit1, cs1)
      else (lit1, cs1)
    | [] => (lit1, cs1)
  (⟨ex.1⟩, ex.2)

/-- Number lexeme parser: optional minus, integer part without leading
zeros, optional fraction and exponent. -/
def pNum (cs : List Char) : Option (String × List Char) :=
  let sg :=
    match cs with
    | '-' :: r => (['-'], r)
    | _ => (([] : List Char), cs)
  match sg.2 with
  | '0' :: r => some (pNumTail (sg.1 ++ ['0']) r)
  | c :: r =>
    if c.isDigit ∧ c ≠ '0' then
      some (pNumTail (sg.1 ++ c :: r.takeWhile Char.isDigit) (r.dropWhile Char.isDigit))
    else none
  | [] => none

mutual

/-- Value parser of the JSON grammar. -/
def pVal : Nat → List Char → Option (Json × List Char)
  | 0, _ => none
  | fuel + 1, cs =>
    match cs with
    | [] => none
    | c :: rest =>
      if c = '\x7b' then
        match skipWs rest with
        | '\x7d' :: r2 => some (.obj [], r2)
        | r1 => pMembers fuel r1 []
      else if c = '[' then
        match skipWs rest with
        | ']' :: r2 => some (.arr [], r2)
        | r1 => pElems fuel r1 []
      else if c = '"' then
        match pStr (fuel + 1) rest [] with
        | some (s, r) => some (.str s, r)
        | none => none
      else if c = 't' then
        match rest with
        | 'r' :: 'u' :: 'e' :: r => some (.bool true, r)
        | _ => none
      else if c = 'f' then
        match rest with
        | 'a' :: 'l' :: 's' :: 'e' :: r => some (.bool false, r)
        | _ => none
      else if c = 'n' then
        match rest with
        | 'u' :: 'l' :: 'l' :: r => some (.null, r)
        | _ => none
      else
        match pNum cs with
        | some (lit, r) => some (.num lit, r)
        | none => none

/-- Object members parser; duplicate keys resolve by assignment order,
as in Python dict construction. -/
def pMembers : Nat → List Char → Dict → Option (Json × List Char)
  | 0, _, _ => none
  | fuel + 1, cs, acc =>
    match cs with
    | '"' :: rest =>
      match pStr (fuel + 1) rest [] with
      | none => none
      | some (k, r1) =>
        match skipWs r1 with
        | ':' :: r2 =>
          match pVal fuel (skipWs r2) with
          | none => none
          | some (v, r3) =>
            match skipWs r3 with
            | ',' :: r4 => pMembers fuel (skipWs r4) (dset acc k v)
            | '\x7d' :: r4 => some (.obj (dset acc k v), r4)
            | _ => none
        | _ => none
    | _ => none

/-- Array elements parser. -/
def pElems : Nat → List Char → List Json → Option (Json × List Char)
  | 0, _, _ => none
  | fuel + 1, cs, acc =>
    match pVal fuel cs with
    | none => none
    | some (v, r1) =>
      match skipWs r1 with
      | ',' :: r2 => pElems fuel (skipWs r2) (acc ++ [v])
      | ']' :: r2 => some (.arr (acc ++ [v]), r2)
      | _ => none

end

/-- Model of json.loads on a character list: one value surrounded by
optional whitespace, nothing trailing. The fuel is sufficient because
every recursive call of the parser consumes at least one character. -/
def jsonLoadsL (cs : List Char) : Option Json :=
  match pVal (cs.length + 1) (skipWs cs) with
  | some (v, r) => if skipWs r = [] then some v else none
  | none => none

/-- Model of json.loads on a string. -/
def jsonLoads (s : String) : Option Json := jsonLoadsL s.data

/-- One candidate pair of parse_truncated_json, wrapped in braces and
given to json.loads; a parse failure is the skipped MalformedEntry case. -/
def decodePair (p : List Char) : Option Dict :=
  match jsonLoadsL ('\x7b' :: (p ++ ['\x7d'])) with
  | some (Json.obj d) => some d
  | _ => none

/-- Final loop of parse_truncated_json: every pair that deserializes is
folded into the result dict, failures are skipped. -/
def applyPairs (res : Dict) : List (List Char) → Dict
  | [] => res
  | p :: ps =>
    match decodePair p with
    | some d => applyPairs (dupdate res d) ps
    | none => applyPairs res ps

/-- Model of parse_truncated_json, src/main.py lines 11 to 92. -/
def parse_truncated_json (s : String) : Dict :=
  applyPairs [] (scanPairs s)


/-! ## The fragment merger, src/main.py lines 158 to 179

The Python function receives `base` (always a dict in this program) and
`new`, the oasDefinition value of a fragment.  Uncaught exceptions are
modelled as `Except.error`: a missing key is `keyError`; every
wrong-shape failure (TypeError on subscription of a non-container,
AttributeError on `.items()` or `.update` of a non-dict, ValueError on
`.update` of a non-pair iterable) is collapsed into `typeError`, since
the program never distinguishes them.  `merged = base.copy()` and the
in-place writes are rendered by threading the dict value. -/

/-- Exceptions that can escape the embedded functions. -/
inductive CrawlErr where
  | keyError : CrawlErr
  | typeError : CrawlErr
  | assertionError : CrawlErr
  | jsonDecodeError : CrawlErr
deriving DecidableEq, Repr

/-- Python membership `k in x` for the string k: key membership for a
dict, element equality for a list, substring for a string, TypeError
otherwise. -/
def chHasSub (sub : List Char) : List Char → Bool
  | [] => sub.isEmpty
  | c :: cs => List.isPrefixOf sub (c :: cs) || chHasSub sub cs

/-- Python membership of a string key in a JSON value. -/
def pyIn (k : String) : Json → Except CrawlErr Bool
  | .obj d => .ok (dget d k).isSome
  | .arr xs => .ok (xs.contains (.str k))
  | .str s => .ok (chHasSub k.data s.data)
  | _ => .error .typeError

/-- Python subscription `x[k]` with a string key. -/
def pyGetKey (x : Json) (k : String) : Except CrawlErr Json :=
  match x with
  | .obj d =>
    match dget d k with
    | some v => .ok v
    | none => .error .keyError
  | _ => .error .typeError

/-- Shared core of both merge loops on one nested-map entry: an absent
key receives the fragment value as is; a stored object is
shallow-updated by a fragment object; updating a stored non-object
(AttributeError) or updating with a non-object (TypeError/ValueError)
raises. -/
def mergeEntry : Option Json → Json → Except CrawlErr Json
  | none, v => .ok v
  | some (.obj c), .obj ms => .ok (.obj (dupdate c ms))
  | some (.obj _), _ => .error .typeError
  | some _, _ => .error .typeError

/-- One iteration of the paths loop of merge_oas_definitions: insert the
whole method map when the path is absent, else shallow-update the
stored method map with the fragment entries. -/
def pathsStep (acc : Dict) (pm : String × Json) : Except CrawlErr Dict :=
  match dget acc "paths" with
  | some (.obj A) =>
    match mergeEntry (dget A pm.1) pm.2 with
    | .ok v2 => .ok (dset acc "paths" (.obj (dset A pm.1 v2)))
    | .error e => .error e
  | some _ => .error .typeError
  | none => .error .keyError

/-- The paths loop of merge_oas_definitions. -/
def pathsFold : Dict → List (String × Json) → Except CrawlErr Dict
  | acc, [] => .ok acc
  | acc, pm :: L =>
    match pathsStep acc pm with
    | .ok acc2 => pathsFold acc2 L
    | .error e => .error e

/-- One iteration of the inner components loop: insert the item when its
name is absent in the stored category, else shallow-update it. -/
def compItemStep (sec : String) (acc : Dict) (ni : String × Json) : Except CrawlErr Dict :=
  match dget acc "components" with
  | some (.obj C) =>
    match dget C sec with
    | some (.obj S) =>
      match mergeEntry (dget S ni.1) ni.2 with
      | .ok v2 => .ok (dset acc "components" (.obj (dset C sec (.obj (dset S ni.1 v2)))))
      | .error e => .error e
    | some _ => .error .typeError
    | none => .error .keyError
  | some _ => .error .typeError
  | none => .error .keyError

/-- The inner components loop. -/
def compItemFold (sec : String) : Dict → List (String × Json) → Except CrawlErr Dict
  | acc, [] => .ok acc
  | acc, ni :: L =>
    match compItemStep sec acc ni with
    | .ok acc2 => compItemFold sec acc2 L
    | .error e => .error e

/-- One iteration of the outer components loop: insert the whole
category value when absent, else run the inner loop over the fragment
category, which must then be a dict. -/
def compStep (acc : Dict) (sv : String × Json) : Except CrawlErr Dict :=
  match dget acc "components" with
  | some (.obj C) =>
    match dget C sv.1 with
    | none => .ok (dset acc "components" (.obj (dset C sv.1 sv.2)))
    | some _ =>
      match sv.2 with
      | .obj items => compItemFold sv.1 acc items
      | _ => .error .typeError
  | some _ => .error .typeError
  | none => .error .keyError

/-- The outer components loop. -/
def compFold : Dict → List (String × Json) → Except CrawlErr Dict
  | acc, [] => .ok acc
  | acc, sv :: L =>
    match compStep acc sv with
    | .ok acc2 => compFold acc2 L
    | .error e => .error e

/-- The components block of merge_oas_definitions, lines 168 to 177:
run only when `"components" in new`; `.items()` on a non-dict value
raises. -/
def mergePhase2 (m1 : Dict) (new : Json) : Except CrawlErr Dict :=
  match pyIn "components" new with
  | .error e => .error e
  | .ok hasComps =>
    if hasComps then
      match pyGetKey new "components" with
      | .error e => .error e
      | .ok (.obj nc) => compFold m1 nc
      | .ok _ => .error .typeError
    else .ok m1

/-- Model of merge_oas_definitions, src/main.py lines 158 to 179: the
paths block guarded by `"paths" in new`, then the components block.
The iterations over an empty fragment section never touch `merged`,
which the lazy folds reproduce. -/
def merge_oas_definitions (base : Dict) (new : Json) : Except CrawlErr Dict :=
  match pyIn "paths" new with
  | .error e => .error e
  | .ok hasPaths =>
    if hasPaths then
      match pyGetKey new "paths" with
      | .error e => .error e
      | .ok (.obj np) =>
        match pathsFold base np with
        | .ok m1 => mergePhase2 m1 new
        | .error e => .error e
      | .ok _ => .error .typeError
    else mergePhase2 base new

/-! ## Fetching, src/main.py lines 95 to 155

HTTP, the on-disk cache and the HTML location of the payload are the
external fetch collaborator; a crawled URL is represented by its
observable state `RawPage`:

* `notFoundCached` is the cached negative result or a non-200 response
  (both make fetch_ssr_props return None);
* `cachedProps d` is a cache hit, returning the stored dict directly;
* `page hasMarker truncated payload` is a fresh 200 response: whether
  the ssr-props marker and its data attribute were found, whether the
  attribute value was cut off, and the attribute text itself. -/

/-- Observable state of one URL for the fetch collaborator. -/
inductive RawPage where
  | notFoundCached : RawPage
  | cachedProps (d : Dict) : RawPage
  | page (hasMarker : Bool) (truncated : Bool) (payload : String) : RawPage
deriving DecidableEq, Repr

/-- Model of fetch_ssr_props for one URL state.  A missing marker fails
the assert at lines 127 to 129 and 139 to 141; a truncated payload goes
through parse_truncated_json and must contain oasDefinition (line 145);
a complete payload goes through json.loads and must be an object
(line 148). -/
def fetch_ssr_props : RawPage → Except CrawlErr (Option Dict)
  | .notFoundCached => .ok none
  | .cachedProps d => .ok (some d)
  | .page hasMarker truncated payload =>
    if hasMarker = false then .error .assertionError
    else if truncated then
      let data := parse_truncated_json payload
      if (dget data "oasDefinition").isSome then .ok (some data)
      else .error .assertionError
    else
      match jsonLoads payload with
      | none => .error .jsonDecodeError
      | some (.obj d) => .ok (some d)
      | some _ => .error .assertionError

/-! ## The orchestrator, src/main.py lines 182 to 224 -/

/-- Python truthiness of a JSON value (`not page[isReference]` and
`not props[oasDefinition]`).  A numeral is falsy when its mantissa
digits are all zero. -/
def numIsZero (s : String) : Bool :=
  let cs := match s.data with
    | '-' :: r => r
    | r => r
  (cs.takeWhile (fun c => c ≠ 'e' ∧ c ≠ 'E')).all (fun c => c = '0' ∨ c = '.')

/-- Python truthiness of a JSON value. -/
def truthy : Json → Bool
  | .null => false
  | .bool b => b
  | .num lit => !numIsZero lit
  | .str s => !(s = "")
  | .arr xs => !xs.isEmpty
  | .obj d => !d.isEmpty

/-- Python hashability of a JSON value: lists and dicts cannot enter a
set or be tested for set membership. -/
def jsonHashable : Json → Bool
  | .arr _ => false
  | .obj _ => false
  | _ => true

/-- Python iteration `for x in j`: a list yields its elements, a string
its characters, a dict its keys; other values raise TypeError. -/
def pyIter : Json → Except CrawlErr (List Json)
  | .arr xs => .ok xs
  | .str s => .ok (s.data.map (fun c => Json.str ⟨[c]⟩))
  | .obj d => .ok (d.map (fun p => Json.str p.1))
  | _ => .error .typeError

/-- Collection of the non-reference slugs from the docs sidebars,
src/main.py lines 189 to 193, in iteration order. -/
def collectPages (acc : List Json) : List Json → Except CrawlErr (List Json)
  | [] => .ok acc
  | pg :: rest =>
    match pg with
    | .obj pd =>
      match dget pd "isReference" with
      | none => .error .keyError
      | some isRef =>
        if truthy isRef then collectPages acc rest
        else
          match dget pd "slug" with
          | none => .error .keyError
          | some slug =>
            if jsonHashable slug then collectPages (acc ++ [slug]) rest
            else .error .typeError
    | _ => .error .typeError

/-- Outer loop over the docs list. -/
def collectNonRef (acc : List Json) : List Json → Except CrawlErr (List Json)
  | [] => .ok acc
  | doc :: rest =>
    match doc with
    | .obj dd =>
      match dget dd "pages" with
      | none => .error .keyError
      | some pagesJ =>
        match pyIter pagesJ with
        | .error e => .error e
        | .ok pages =>
          match collectPages acc pages with
          | .error e => .error e
          | .ok acc2 => collectNonRef acc2 rest
    | _ => .error .typeError

/-- Seeding of the result tree, src/main.py lines 199 to 201: copy the
start fragment, then reset paths and components to empty dicts. -/
def seedFrom (frag : Dict) : Dict :=
  dset (dset frag "paths" (Json.obj [])) "components" (Json.obj [])

/-- Data computed by main before the crawl loop: the refs value, the
non-reference slug set, the URL base and the seeded result tree. -/
structure SetupData where
  refs : Json
  nonRef : List Json
  urlBase : String
  oas0 : Dict
deriving DecidableEq, Repr

/-- Python str.endswith on whole strings: the last characters of s are
exactly the candidate ending. -/
def pyEndsWith (s post : String) : Bool :=
  decide (s.data.drop (s.data.length - post.data.length) = post.data)

/-- Model of src/main.py lines 186 to 201, in statement order. -/
def mainSetup (startUrl : String) (env : String → RawPage) : Except CrawlErr SetupData :=
  match fetch_ssr_props (env startUrl) with
  | .error e => .error e
  | .ok none => .error .typeError
  | .ok (some props) =>
    match dget props "sidebars" with
    | none => .error .keyError
    | some sidebars =>
      match pyGetKey sidebars "refs" with
      | .error e => .error e
      | .ok refs =>
        match pyGetKey sidebars "docs" with
        | .error e => .error e
        | .ok docsJ =>
          match pyIter docsJ with
          | .error e => .error e
          | .ok docs =>
            match collectNonRef [] docs with
            | .error e => .error e
            | .ok nonRef =>
              let urlBase := if pyEndsWith startUrl "/" then startUrl else startUrl ++ "/"
              match dget props "oasDefinition" with
              | none => .error .keyError
              | some (.obj frag) => .ok ⟨refs, nonRef, urlBase, seedFrom frag⟩
              | some _ => .error .typeError

/-- Model of lines 210 to 217 for one fetched URL: fetch, skip on a
missing payload (None), skip on a missing or falsy oasDefinition,
otherwise merge. -/
def pageVisit (env : String → RawPage) (url : String) (oas : Dict) :
    Except CrawlErr (Option Dict) :=
  match fetch_ssr_props (env url) with
  | .error e => .error e
  | .ok none => .ok none
  | .ok (some props) =>
    match dget props "oasDefinition" with
    | none => .ok none
    | some v =>
      if truthy v = false then .ok none
      else
        match merge_oas_definitions oas v with
        | .error e => .error e
        | .ok oas2 => .ok (some oas2)

/-- Model of one iteration of the page loop, src/main.py lines 204 to
217.  The result holds the list of URLs given to fetch_ssr_props during
the iteration (empty for a skipped page) and either an exception, or
none for skip-and-continue, or the merged tree. -/
def pageStep (env : String → RawPage) (urlBase : String) (nonRef : List Json)
    (pg : Json) (oas : Dict) : List String × Except CrawlErr (Option Dict) :=
  match pg with
  | .obj pd =>
    match dget pd "slug" with
    | none => ([], .error .keyError)
    | some slug =>
      if jsonHashable slug = false then ([], .error .typeError)
      else if slug ∈ nonRef then
        match dget pd "title" with
        | none => ([], .error .keyError)
        | some _ => ([], .ok none)
      else
        match dget pd "title" with
        | none => ([], .error .keyError)
        | some _ =>
          match slug with
          | .str s => ([urlBase ++ s], pageVisit env (urlBase ++ s) oas)
          | _ => ([], .error .typeError)
  | _ => ([], .error .typeError)

/-- The page loop over one reference group: the fetched URLs and the
outcome. An exception aborts the loop at once. -/
def crawlPages (env : String → RawPage) (urlBase : String) (nonRef : List Json) :
    List Json → Dict → List String × Except CrawlErr Dict
  | [], oas => ([], .ok oas)
  | pg :: rest, oas =>
    match pageStep env urlBase nonRef pg oas with
    | (us, .error e) => (us, .error e)
    | (us, .ok none) =>
      let r := crawlPages env urlBase nonRef rest oas
      (us ++ r.1, r.2)
    | (us, .ok (some oas2)) =>
      let r := crawlPages env urlBase nonRef rest oas2
      (us ++ r.1, r.2)

/-- The group loop, src/main.py line 203: each group must be a dict with
a pages key holding an iterable. -/
def crawlRefs (env : String → RawPage) (urlBase : String) (nonRef : List Json) :
    List Json → Dict → List String × Except CrawlErr Dict
  | [], oas => ([], .ok oas)
  | ref :: rest, oas =>
    match ref with
    | .obj rd =>
      match dget rd "pages" with
      | none => ([], .error .keyError)
      | some pagesJ =>
        match pyIter pagesJ with
        | .error e => ([], .error e)
        | .ok pages =>
          match crawlPages env urlBase nonRef pages oas with
          | (us, .error e) => (us, .error e)
          | (us, .ok oas2) =>
            let r := crawlRefs env urlBase nonRef rest oas2
            (us ++ r.1, r.2)
    | _ => ([], .error .typeError)

/-- Finalization, src/main.py lines 219 to 221: drop the vendor
identifier key and the internal record-id key. -/
def stripKeys (d : Dict) : Dict := ddel (ddel d "x-readme-fauxas") "_id"

/-- Model of main, src/main.py lines 182 to 224.  The first component
is the list of URLs fetched by the reference-page loop, the second the
outcome: the finished tree handed to persistence, or the uncaught
exception that terminated the run. -/
def mainModel (startUrl : String) (env : String → RawPage) :
    List String × Except CrawlErr Dict :=
  match mainSetup startUrl env with
  | .error e => ([], .error e)
  | .ok sd =>
    match pyIter sd.refs with
    | .error e => ([], .error e)
    | .ok refs =>
      match crawlRefs env sd.urlBase sd.nonRef refs sd.oas0 with
      | (tr, .ok oas) => (tr, .ok (stripKeys oas))
      | (tr, .error e) => (tr, .error e)

/-! ## Association-list lemmas for the dict operations -/

theorem dget_dset_self (d : Dict) (k : String) (v : Json) :
    dget (dset d k v) k = some v := by
  induction d with
  | nil => simp [dset, dget]
  | cons p d ih =>
    by_cases h : p.1 = k
    · simp [dset, h, dget]
    · simp [dset, h, dget, ih]

theorem dget_dset_ne (d : Dict) {k k2 : String} (v : Json) (h : k2 ≠ k) :
    dget (dset d k v) k2 = dget d k2 := by
  induction d with
  | nil => simp [dset, dget, Ne.symm h]
  | cons p d ih =>
    by_cases hp : p.1 = k
    · simp [dset, hp, dget, Ne.symm h]
    · simp only [dset, hp, if_false, dget, ih]

theorem dset_same {d : Dict} {k : String} {v : Json} (h : dget d k = some v) :
    dset d k v = d := by
  induction d with
  | nil => simp [dget] at h
  | cons p d ih =>
    by_cases hp : p.1 = k
    · simp only [dget, hp, if_true, Option.some.injEq] at h
      subst h
      subst hp
      simp [dset]
    · simp only [dget, hp, if_false] at h
      simp [dset, hp, ih h]

theorem dset_dset_same (d : Dict) (k : String) (v v2 : Json) :
    dset (dset d k v) k v2 = dset d k v2 := by
  induction d with
  | nil => simp [dset]
  | cons p d ih =>
    by_cases hp : p.1 = k
    · simp [dset, hp]
    · simp [dset, hp, ih]

theorem mem_keys_dset (d : Dict) (k : String) (v : Json) (k2 : String) :
    k2 ∈ keys (dset d k v) ↔ k2 = k ∨ k2 ∈ keys d := by
  induction d with
  | nil => simp [dset, keys]
  | cons p d ih =>
    by_cases hp : p.1 = k
    · subst hp
      rw [show dset (p :: d) p.1 v = (p.1, v) :: d from by simp [dset]]
      simp only [keys, List.map_cons, List.mem_cons]
      tauto
    · simp only [dset, hp, if_false]
      simp only [keys, List.map_cons, List.mem_cons] at *
      rw [ih]
      tauto

theorem nodup_keys_dset {d : Dict} (k : String) (v : Json)
    (h : (keys d).Nodup) : (keys (dset d k v)).Nodup := by
  induction d with
  | nil => simp [dset, keys]
  | cons p d ih =>
    simp only [keys, List.map_cons, List.nodup_cons] at h
    by_cases hp : p.1 = k
    · simp only [dset, hp, if_true, keys, List.map_cons, List.nodup_cons]
      exact ⟨hp ▸ h.1, h.2⟩
    · simp only [dset, hp, if_false, keys, List.map_cons, List.nodup_cons]
      refine ⟨fun hc => ?_, ih h.2⟩
      rcases (mem_keys_dset d k v p.1).1 hc with h1 | h1
      · exact hp h1
      · exact h.1 h1

theorem dget_mem {d : Dict} {k : String} {v : Json} (h : dget d k = some v) :
    (k, v) ∈ d := by
  induction d with
  | nil => simp [dget] at h
  | cons p d ih =>
    by_cases hp : p.1 = k
    · simp only [dget, hp, if_true, Option.some.injEq] at h
      subst h
      subst hp
      exact List.mem_cons_self _ _
    · simp only [dget, hp, if_false] at h
      exact List.mem_cons_of_mem _ (ih h)

theorem mem_dset {d : Dict} {k : String} {v : Json} {p : String × Json}
    (h : p ∈ dset d k v) : p ∈ d ∨ p = (k, v) := by
  induction d with
  | nil =>
    simp only [dset, List.mem_singleton] at h
    exact Or.inr h
  | cons q d ih =>
    by_cases hq : q.1 = k
    · simp only [dset, hq, if_true, List.mem_cons] at h
      rcases h with h | h
      · exact Or.inr h
      · exact Or.inl (List.mem_cons_of_mem _ h)
    · simp only [dset, hq, if_false, List.mem_cons] at h
      rcases h with h | h
      · exact Or.inl (h ▸ List.mem_cons_self _ _)
      · rcases ih h with h2 | h2
        · exact Or.inl (List.mem_cons_of_mem _ h2)
        · exact Or.inr h2

theorem dget_none_iff {d : Dict} {k : String} : dget d k = none ↔ k ∉ keys d := by
  induction d with
  | nil => simp [dget, keys]
  | cons p d ih =>
    by_cases hp : p.1 = k
    · simp [dget, hp, keys]
    · simp [dget, hp, keys, ih, show ¬ k = p.1 from fun h => hp h.symm]

theorem dget_eq_some_of_nodup {d : Dict} {k : String} {v : Json}
    (hn : (keys d).Nodup) (h : (k, v) ∈ d) : dget d k = some v := by
  induction d with
  | nil => simp at h
  | cons p d ih =>
    simp only [keys, List.map_cons, List.nodup_cons] at hn
    rcases List.mem_cons.1 h with h1 | h1
    · subst h1
      simp [dget]
    · have hk : k ∈ keys d := List.mem_map_of_mem Prod.fst h1
      have hp : ¬ p.1 = k := fun e2 => hn.1 (e2 ▸ hk)
      simp [dget, hp, ih hn.2 h1]

theorem lastGet_cons_some {p : String × Json} {e : List (String × Json)}
    {k : String} {v : Json} (h : lastGet e k = some v) :
    lastGet (p :: e) k = some v := by
  simp [lastGet, h]

theorem lastGet_cons_none {p : String × Json} {e : List (String × Json)}
    {k : String} (h : lastGet e k = none) :
    lastGet (p :: e) k = if p.1 = k then some p.2 else none := by
  simp [lastGet, h]

theorem lastGet_none_iff {e : List (String × Json)} {k : String} :
    lastGet e k = none ↔ k ∉ keys e := by
  induction e with
  | nil => simp [lastGet, keys]
  | cons p e ih =>
    cases hl : lastGet e k with
    | some v =>
      rw [lastGet_cons_some hl]
      have hmem : k ∈ keys e := by
        by_contra hc
        rw [ih.2 hc] at hl
        cases hl
      have hmem2 : k ∈ keys (p :: e) := List.mem_cons_of_mem _ hmem
      simp [hmem2]
    | none =>
      rw [lastGet_cons_none hl]
      have hk : k ∉ keys e := ih.1 hl
      have hkeys : keys (p :: e) = p.1 :: keys e := rfl
      by_cases hp : p.1 = k
      · rw [if_pos hp, hkeys]
        simp [hp]
      · rw [if_neg hp, hkeys]
        simp [hk, show ¬ k = p.1 from fun h => hp h.symm]

theorem lastGet_eq_of_nodup {e : List (String × Json)} {k : String} {v : Json}
    (hn : (keys e).Nodup) (h : (k, v) ∈ e) : lastGet e k = some v := by
  induction e with
  | nil => simp at h
  | cons p e ih =>
    simp only [keys, List.map_cons, List.nodup_cons] at hn
    rcases List.mem_cons.1 h with h1 | h1
    · subst h1
      rw [lastGet_cons_none (lastGet_none_iff.2 hn.1)]
      simp
    · rw [lastGet_cons_some (ih hn.2 h1)]

theorem dget_dupdate_none {e : List (String × Json)} {k : String}
    (h : lastGet e k = none) : ∀ d : Dict, dget (dupdate d e) k = dget d k := by
  induction e with
  | nil =>
    intro d
    simp [dupdate]
  | cons p e ih =>
    intro d
    simp only [lastGet] at h
    cases hl : lastGet e k with
    | some w =>
      rw [hl] at h
      simp at h
    | none =>
      rw [hl] at h
      have hp : ¬ p.1 = k := by
        intro e2
        rw [if_pos e2] at h
        cases h
      simp only [dupdate]
      rw [ih hl, dget_dset_ne _ _ (fun e2 => hp e2.symm)]

theorem dget_dupdate_some {e : List (String × Json)} {k : String} {v : Json}
    (h : lastGet e k = some v) : ∀ d : Dict, dget (dupdate d e) k = some v := by
  induction e with
  | nil => simp [lastGet] at h
  | cons p e ih =>
    intro d
    simp only [lastGet] at h
    cases hl : lastGet e k with
    | some w =>
      rw [hl] at h
      simp only [Option.some.injEq] at h
      subst h
      simp only [dupdate]
      exact ih hl _
    | none =>
      rw [hl] at h
      by_cases hp : p.1 = k
      · rw [if_pos hp] at h
        simp only [Option.some.injEq] at h
        subst h
        subst hp
        simp only [dupdate]
        rw [dget_dupdate_none hl, dget_dset_self]
      · rw [if_neg hp] at h
        cases h

theorem mem_keys_dupdate (d : Dict) (e : List (String × Json)) (k : String) :
    k ∈ keys (dupdate d e) ↔ k ∈ keys d ∨ k ∈ keys e := by
  induction e generalizing d with
  | nil => simp [dupdate, keys]
  | cons p e ih =>
    rw [show dupdate d (p :: e) = dupdate (dset d p.1 p.2) e from rfl]
    rw [ih (dset d p.1 p.2), mem_keys_dset]
    rw [show keys (p :: e) = p.1 :: keys e from rfl]
    simp only [List.mem_cons]
    tauto

theorem nodup_keys_dupdate (e : List (String × Json)) :
    ∀ {d : Dict}, (keys d).Nodup → (keys (dupdate d e)).Nodup := by
  induction e with
  | nil =>
    intro d hn
    exact hn
  | cons p e ih =>
    intro d hn
    exact ih (nodup_keys_dset _ _ hn)

theorem map_setfn_id {d : Dict} {k : String} {v : Json} (h : k ∉ keys d) :
    d.map (fun p => if p.1 = k then (k, v) else p) = d := by
  induction d with
  | nil => simp
  | cons p d ih =>
    simp only [keys, List.map_cons, List.mem_cons, not_or] at h
    have hp : ¬ p.1 = k := fun e2 => h.1 e2.symm
    simp only [List.map_cons, hp, if_false]
    rw [ih h.2]

theorem dset_eq_map {d : Dict} {k : String} (v : Json)
    (hn : (keys d).Nodup) (hm : k ∈ keys d) :
    dset d k v = d.map (fun p => if p.1 = k then (k, v) else p) := by
  induction d with
  | nil => simp [keys] at hm
  | cons p d ih =>
    simp only [keys, List.map_cons, List.nodup_cons] at hn
    rw [show keys (p :: d) = p.1 :: keys d from rfl] at hm
    by_cases hp : p.1 = k
    · simp only [dset, hp, if_true, List.map_cons, if_pos hp]
      rw [map_setfn_id (hp ▸ hn.1)]
    · have hm2 : k ∈ keys d := by
        rcases List.mem_cons.1 hm with h1 | h1
        · exact absurd h1.symm hp
        · exact h1
      simp only [dset, hp, if_false, List.map_cons]
      rw [ih hn.2 hm2]

theorem dupdate_eq_map (e : List (String × Json)) :
    ∀ {D : Dict}, (keys D).Nodup → (∀ k ∈ keys e, k ∈ keys D) →
      dupdate D e = D.map (fun p => (p.1, (lastGet e p.1).getD p.2)) := by
  induction e with
  | nil =>
    intro D hn hsub
    simp only [dupdate, lastGet, Option.getD_none]
    exact ((List.map_congr_left (fun p _ => rfl)).trans (List.map_id D)).symm
  | cons q e ih =>
    intro D hn hsub
    have hq : q.1 ∈ keys D := by
      apply hsub q.1
      rw [show keys (q :: e) = q.1 :: keys e from rfl]
      exact List.mem_cons_self _ _
    rw [show dupdate D (q :: e) = dupdate (dset D q.1 q.2) e from rfl]
    have hsub2 : ∀ k ∈ keys e, k ∈ keys (dset D q.1 q.2) := by
      intro k hk
      rw [mem_keys_dset]
      right
      apply hsub k
      rw [show keys (q :: e) = q.1 :: keys e from rfl]
      exact List.mem_cons_of_mem _ hk
    rw [ih (nodup_keys_dset _ _ hn) hsub2]
    rw [dset_eq_map q.2 hn hq, List.map_map]
    apply List.map_congr_left
    intro p hp
    simp only [Function.comp_apply]
    by_cases hpk : p.1 = q.1
    · rw [if_pos hpk, hpk]
      cases hl : lastGet e q.1 with
      | some v =>
        rw [lastGet_cons_some (p := q) hl]
        simp [hl]
      | none =>
        rw [lastGet_cons_none (p := q) hl]
        simp [hl]
    · rw [if_neg hpk]
      cases hl : lastGet e p.1 with
      | some v => rw [lastGet_cons_some (p := q) hl]
      | none => rw [lastGet_cons_none (p := q) hl, if_neg (fun h => hpk h.symm)]

theorem dupdate_fix {d : Dict} {e : List (String × Json)}
    (hn : (keys d).Nodup) (hsub : ∀ k ∈ keys e, k ∈ keys d)
    (hfix : ∀ p ∈ d, ∀ v, lastGet e p.1 = some v → p.2 = v) :
    dupdate d e = d := by
  rw [dupdate_eq_map e hn hsub]
  have hid : ∀ p ∈ d, ((p.1 : String), (lastGet e p.1).getD p.2) = p := by
    intro p hp
    cases hl : lastGet e p.1 with
    | some v =>
      rw [← hfix p hp v hl]
      rfl
    | none => rfl
  exact (List.map_congr_left hid).trans (List.map_id d)

theorem dupdate_self {d : Dict} (hn : (keys d).Nodup) : dupdate d d = d := by
  apply dupdate_fix hn (fun _ hk => hk)
  intro p hp v hl
  have h2 : lastGet d p.1 = some p.2 := lastGet_eq_of_nodup hn hp
  rw [h2] at hl
  exact Option.some.inj hl

theorem dupdate_idem {d : Dict} (e : List (String × Json))
    (hn : (keys d).Nodup) : dupdate (dupdate d e) e = dupdate d e := by
  apply dupdate_fix (nodup_keys_dupdate e hn)
  · intro k hk
    rw [mem_keys_dupdate]
    exact Or.inr hk
  · intro p hp v hl
    have h2 : dget (dupdate d e) p.1 = some p.2 :=
      dget_eq_some_of_nodup (nodup_keys_dupdate e hn) hp
    have h3 : dget (dupdate d e) p.1 = some v := dget_dupdate_some hl d
    rw [h2] at h3
    exact Option.some.inj h3

/-! ## Pure views of the merge loops and their properties -/

/-- Pure form of one merge loop acting directly on the nested map: both
the paths loop and the inner components loop have this shape once the
enclosing result tree is projected away. -/
def applyEntries : Dict → List (String × Json) → Except CrawlErr Dict
  | A, [] => .ok A
  | A, pm :: L =>
    match mergeEntry (dget A pm.1) pm.2 with
    | .ok v2 => applyEntries (dset A pm.1 v2) L
    | .error e => .error e

theorem applyEntries_cons (A : Dict) (pm : String × Json) (L : List (String × Json)) :
    applyEntries A (pm :: L) = (match mergeEntry (dget A pm.1) pm.2 with
      | .ok v2 => applyEntries (dset A pm.1 v2) L
      | .error e => .error e) := rfl

theorem mergeEntry_ok_cases {o : Option Json} {v v2 : Json}
    (h : mergeEntry o v = .ok v2) :
    (o = none ∧ v2 = v) ∨
      (∃ c ms : Dict, o = some (.obj c) ∧ v = .obj ms ∧ v2 = .obj (dupdate c ms)) := by
  cases o with
  | none =>
    left
    exact ⟨rfl, (Except.ok.inj h).symm⟩
  | some w =>
    cases w with
    | obj c =>
      cases v with
      | obj ms =>
        right
        exact ⟨c, ms, rfl, rfl, (Except.ok.inj h).symm⟩
      | null => exact Except.noConfusion h
      | bool b => exact Except.noConfusion h
      | num n => exact Except.noConfusion h
      | str s => exact Except.noConfusion h
      | arr xs => exact Except.noConfusion h
    | null => exact Except.noConfusion h
    | bool b => exact Except.noConfusion h
    | num n => exact Except.noConfusion h
    | str s => exact Except.noConfusion h
    | arr xs => exact Except.noConfusion h

theorem applyEntries_dget_of_not_mem {L : List (String × Json)} (k : String)
    (hk : k ∉ keys L) :
    ∀ {A A2 : Dict}, applyEntries A L = .ok A2 → dget A2 k = dget A k := by
  induction L with
  | nil =>
    intro A A2 h
    cases h
    rfl
  | cons pm L ih =>
    intro A A2 h
    have hkeys : keys (pm :: L) = pm.1 :: keys L := rfl
    have hk1 : ¬ pm.1 = k := by
      intro e
      exact hk (by rw [hkeys]; exact e ▸ List.mem_cons_self _ _)
    have hk2 : k ∉ keys L := fun hm => hk (by rw [hkeys]; exact List.mem_cons_of_mem _ hm)
    rw [applyEntries_cons] at h
    cases hE : mergeEntry (dget A pm.1) pm.2 with
    | error e =>
      rw [hE] at h
      exact Except.noConfusion h
    | ok v2 =>
      rw [hE] at h
      replace h : applyEntries (dset A pm.1 v2) L = .ok A2 := h
      rw [ih hk2 h, dget_dset_ne _ _ (fun e => hk1 e.symm)]

theorem applyEntries_mem_keys {L : List (String × Json)} :
    ∀ {A A2 : Dict}, applyEntries A L = .ok A2 → ∀ k,
      (k ∈ keys A2 ↔ k ∈ keys A ∨ k ∈ keys L) := by
  induction L with
  | nil =>
    intro A A2 h k
    cases h
    simp [keys]
  | cons pm L ih =>
    intro A A2 h k
    rw [applyEntries_cons] at h
    cases hE : mergeEntry (dget A pm.1) pm.2 with
    | error e =>
      rw [hE] at h
      exact Except.noConfusion h
    | ok v2 =>
      rw [hE] at h
      replace h : applyEntries (dset A pm.1 v2) L = .ok A2 := h
      rw [ih h k, mem_keys_dset, show keys (pm :: L) = pm.1 :: keys L from rfl,
        List.mem_cons]
      tauto

/-- Well-formedness of a stored nested map: unique keys, and unique keys
in every object value. Python dicts always satisfy this. -/
def mapWF (A : Dict) : Prop :=
  (keys A).Nodup ∧ ∀ p ∈ A, ∀ c : Dict, p.2 = Json.obj c → (keys c).Nodup

/-- Shape of a fragment nested map as replayed by the merge loops:
unique keys and every value an object with unique keys. -/
def entriesWF (L : List (String × Json)) : Prop :=
  (keys L).Nodup ∧ ∀ p ∈ L, ∃ c : Dict, p.2 = Json.obj c ∧ (keys c).Nodup

theorem applyEntries_fixed {L : List (String × Json)} :
    ∀ {A : Dict},
      (∀ p ∈ L, dget A p.1 = some p.2 ∧ ∃ c : Dict, p.2 = Json.obj c ∧ (keys c).Nodup) →
      applyEntries A L = .ok A := by
  induction L with
  | nil =>
    intro A _
    rfl
  | cons pm L ih =>
    intro A h
    obtain ⟨hd, ms, hms, hmsn⟩ := h pm (List.mem_cons_self _ _)
    have hget2 : dget A pm.1 = some (Json.obj ms) := by
      rw [← hms]
      exact hd
    have hred : applyEntries A (pm :: L) = applyEntries (dset A pm.1 (.obj (dupdate ms ms))) L := by
      rw [applyEntries_cons, hd, hms]
      rfl
    rw [hred, dupdate_self hmsn, dset_same hget2]
    exact ih (fun p hp => h p (List.mem_cons_of_mem _ hp))

theorem applyEntries_idem (L : List (String × Json)) :
    ∀ {A A2 : Dict}, mapWF A → entriesWF L →
      applyEntries A L = .ok A2 → applyEntries A2 L = .ok A2 := by
  induction L with
  | nil =>
    intro A A2 _ _ h
    cases h
    rfl
  | cons pm L ih =>
    intro A A2 hA hL h
    obtain ⟨ms, hms, hmsn⟩ := hL.2 pm (List.mem_cons_self _ _)
    have hkeys : keys (pm :: L) = pm.1 :: keys L := rfl
    have hknd := List.nodup_cons.1 (hkeys ▸ hL.1)
    have hLtail : entriesWF L := ⟨hknd.2, fun p hp => hL.2 p (List.mem_cons_of_mem _ hp)⟩
    rw [applyEntries_cons] at h
    cases hE : mergeEntry (dget A pm.1) pm.2 with
    | error e =>
      rw [hE] at h
      exact Except.noConfusion h
    | ok v2 =>
      rw [hE] at h
      replace h : applyEntries (dset A pm.1 v2) L = .ok A2 := h
      have hget : dget A2 pm.1 = some v2 := by
        rw [applyEntries_dget_of_not_mem pm.1 hknd.1 h, dget_dset_self]
      rcases mergeEntry_ok_cases hE with ⟨hdnone, hv2⟩ | ⟨c, ms2, hdsome, hv, hv2⟩
      · subst hv2
        have hget2 : dget A2 pm.1 = some (Json.obj ms) := by
          rw [← hms]
          exact hget
        have hred2 : applyEntries A2 (pm :: L)
            = applyEntries (dset A2 pm.1 (.obj (dupdate ms ms))) L := by
          rw [applyEntries_cons, hget, hms]
          rfl
        rw [hred2, dupdate_self hmsn, dset_same hget2]
        apply ih ?_ hLtail h
        refine ⟨nodup_keys_dset _ _ hA.1, ?_⟩
        intro p hp cc hc
        rcases mem_dset hp with hmem | heq
        · exact hA.2 p hmem cc hc
        · have h2 : pm.2 = Json.obj cc := by
            rw [heq] at hc
            exact hc
          rw [hms] at h2
          cases Json.obj.inj h2
          exact hmsn
      · have hcn : (keys c).Nodup := hA.2 (pm.1, .obj c) (dget_mem hdsome) c rfl
        have hms2n : (keys ms2).Nodup := by
          cases Json.obj.inj (hms.symm.trans hv)
          exact hmsn
        subst hv2
        have hred2 : applyEntries A2 (pm :: L)
            = applyEntries (dset A2 pm.1 (.obj (dupdate (dupdate c ms2) ms2))) L := by
          rw [applyEntries_cons, hget, hv]
          rfl
        rw [hred2, dupdate_idem ms2 hcn, dset_same hget]
        apply ih ?_ hLtail h
        refine ⟨nodup_keys_dset _ _ hA.1, ?_⟩
        intro p hp cc hc
        rcases mem_dset hp with hmem | heq
        · exact hA.2 p hmem cc hc
        · have h2 : Json.obj (dupdate c ms2) = Json.obj cc := by
            rw [heq] at hc
            exact hc
          cases Json.obj.inj h2
          exact nodup_keys_dupdate ms2 hcn

theorem pathsFold_cons (acc : Dict) (pm : String × Json) (L : List (String × Json)) :
    pathsFold acc (pm :: L) = (match pathsStep acc pm with
      | .ok acc2 => pathsFold acc2 L
      | .error e => .error e) := rfl

theorem pathsStep_ok_shape {acc acc2 : Dict} {pm : String × Json}
    (h : pathsStep acc pm = .ok acc2) :
    ∃ A v2, dget acc "paths" = some (.obj A) ∧ mergeEntry (dget A pm.1) pm.2 = .ok v2 ∧
      acc2 = dset acc "paths" (.obj (dset A pm.1 v2)) := by
  unfold pathsStep at h
  cases hp : dget acc "paths" with
  | none =>
    rw [hp] at h
    exact Except.noConfusion h
  | some w =>
    rw [hp] at h
    cases w with
    | obj A =>
      replace h : (match mergeEntry (dget A pm.1) pm.2 with
        | Except.ok v2 => Except.ok (dset acc "paths" (Json.obj (dset A pm.1 v2)))
        | Except.error e => Except.error e) = Except.ok acc2 := h
      cases hE : mergeEntry (dget A pm.1) pm.2 with
      | error e =>
        rw [hE] at h
        exact Except.noConfusion h
      | ok v2 =>
        rw [hE] at h
        exact ⟨A, v2, rfl, hE, (Except.ok.inj h).symm⟩
    | null => exact Except.noConfusion h
    | bool b => exact Except.noConfusion h
    | num n => exact Except.noConfusion h
    | str s => exact Except.noConfusion h
    | arr xs => exact Except.noConfusion h

theorem pathsFold_eq (L : List (String × Json)) :
    ∀ {acc A : Dict}, dget acc "paths" = some (.obj A) →
      pathsFold acc L = (applyEntries A L).map (fun A2 => dset acc "paths" (.obj A2)) := by
  induction L with
  | nil =>
    intro acc A h
    show Except.ok acc = (Except.ok A).map _
    simp only [Except.map]
    rw [dset_same h]
  | cons pm L ih =>
    intro acc A h
    have hstep : pathsStep acc pm = (match mergeEntry (dget A pm.1) pm.2 with
      | .ok v2 => .ok (dset acc "paths" (.obj (dset A pm.1 v2)))
      | .error e => .error e) := by
      simp only [pathsStep, h]
    rw [pathsFold_cons, hstep, applyEntries_cons]
    cases hE : mergeEntry (dget A pm.1) pm.2 with
    | error e => rfl
    | ok v2 =>
      show pathsFold (dset acc "paths" (.obj (dset A pm.1 v2))) L
        = (applyEntries (dset A pm.1 v2) L).map (fun A2 => dset acc "paths" (.obj A2))
      rw [ih (dget_dset_self acc "paths" _)]
      cases applyEntries (dset A pm.1 v2) L with
      | error e => rfl
      | ok A2 =>
        simp only [Except.map]
        rw [dset_dset_same]

theorem pathsFold_dget_ne (L : List (String × Json)) {k : String} (hk : ¬ k = "paths") :
    ∀ {acc m : Dict}, pathsFold acc L = .ok m → dget m k = dget acc k := by
  induction L with
  | nil =>
    intro acc m h
    cases h
    rfl
  | cons pm L ih =>
    intro acc m h
    rw [pathsFold_cons] at h
    cases hs : pathsStep acc pm with
    | error e =>
      rw [hs] at h
      exact Except.noConfusion h
    | ok acc2 =>
      rw [hs] at h
      replace h : pathsFold acc2 L = .ok m := h
      obtain ⟨A, v2, _, _, hshape⟩ := pathsStep_ok_shape hs
      rw [ih h, hshape, dget_dset_ne _ _ hk]

theorem compItemFold_cons (sec : String) (acc : Dict) (ni : String × Json)
    (items : List (String × Json)) :
    compItemFold sec acc (ni :: items) = (match compItemStep sec acc ni with
      | .ok acc2 => compItemFold sec acc2 items
      | .error e => .error e) := rfl

theorem compItemStep_ok_shape {sec : String} {acc acc2 : Dict} {ni : String × Json}
    (h : compItemStep sec acc ni = .ok acc2) :
    ∃ C S v2, dget acc "components" = some (.obj C) ∧ dget C sec = some (.obj S) ∧
      mergeEntry (dget S ni.1) ni.2 = .ok v2 ∧
      acc2 = dset acc "components" (.obj (dset C sec (.obj (dset S ni.1 v2)))) := by
  unfold compItemStep at h
  cases hp : dget acc "components" with
  | none =>
    rw [hp] at h
    exact Except.noConfusion h
  | some w =>
    rw [hp] at h
    cases w with
    | obj C =>
      replace h : (match dget C sec with
        | some (Json.obj S) =>
          match mergeEntry (dget S ni.1) ni.2 with
          | Except.ok v2 =>
            Except.ok (dset acc "components" (Json.obj (dset C sec (Json.obj (dset S ni.1 v2)))))
          | Except.error e => Except.error e
        | some _ => Except.error CrawlErr.typeError
        | none => Except.error CrawlErr.keyError) = Except.ok acc2 := h
      cases hq : dget C sec with
      | none =>
        rw [hq] at h
        exact Except.noConfusion h
      | some u =>
        rw [hq] at h
        cases u with
        | obj S =>
          replace h : (match mergeEntry (dget S ni.1) ni.2 with
            | Except.ok v2 =>
              Except.ok (dset acc "components" (Json.obj (dset C sec (Json.obj (dset S ni.1 v2)))))
            | Except.error e => Except.error e) = Except.ok acc2 := h
          cases hE : mergeEntry (dget S ni.1) ni.2 with
          | error e =>
            rw [hE] at h
            exact Except.noConfusion h
          | ok v2 =>
            rw [hE] at h
            exact ⟨C, S, v2, rfl, hq, hE, (Except.ok.inj h).symm⟩
        | null => exact Except.noConfusion h
        | bool b => exact Except.noConfusion h
        | num n => exact Except.noConfusion h
        | str s => exact Except.noConfusion h
        | arr xs => exact Except.noConfusion h
    | null => exact Except.noConfusion h
    | bool b => exact Except.noConfusion h
    | num n => exact Except.noConfusion h
    | str s => exact Except.noConfusion h
    | arr xs => exact Except.noConfusion h

theorem compItemFold_eq (items : List (String × Json)) :
    ∀ {acc C S : Dict} {sec : String}, dget acc "components" = some (.obj C) →
      dget C sec = some (.obj S) →
      compItemFold sec acc items = (applyEntries S items).map
        (fun S2 => dset acc "components" (.obj (dset C sec (.obj S2)))) := by
  induction items with
  | nil =>
    intro acc C S sec h1 h2
    show Except.ok acc = (Except.ok S).map _
    simp only [Except.map]
    rw [dset_same h2, dset_same h1]
  | cons ni items ih =>
    intro acc C S sec h1 h2
    have hstep : compItemStep sec acc ni = (match mergeEntry (dget S ni.1) ni.2 with
      | .ok v2 => .ok (dset acc "components" (.obj (dset C sec (.obj (dset S ni.1 v2)))))
      | .error e => .error e) := by
      simp only [compItemStep, h1, h2]
    rw [compItemFold_cons, hstep, applyEntries_cons]
    cases hE : mergeEntry (dget S ni.1) ni.2 with
    | error e => rfl
    | ok v2 =>
      show compItemFold sec (dset acc "components" (.obj (dset C sec (.obj (dset S ni.1 v2))))) items
        = (applyEntries (dset S ni.1 v2) items).map
            (fun S2 => dset acc "components" (.obj (dset C sec (.obj S2))))
      rw [ih (dget_dset_self _ _ _) (dget_dset_self _ _ _)]
      cases applyEntries (dset S ni.1 v2) items with
      | error e => rfl
      | ok S2 =>
        simp only [Except.map]
        rw [dset_dset_same, dset_dset_same]

theorem compItemFold_dget_ne (items : List (String × Json)) {sec : String} {k : String}
    (hk : ¬ k = "components") :
    ∀ {acc m : Dict}, compItemFold sec acc items = .ok m → dget m k = dget acc k := by
  induction items with
  | nil =>
    intro acc m h
    cases h
    rfl
  | cons ni items ih =>
    intro acc m h
    rw [compItemFold_cons] at h
    cases hs : compItemStep sec acc ni with
    | error e =>
      rw [hs] at h
      exact Except.noConfusion h
    | ok acc2 =>
      rw [hs] at h
      replace h : compItemFold sec acc2 items = .ok m := h
      obtain ⟨C, S, v2, _, _, _, hshape⟩ := compItemStep_ok_shape hs
      rw [ih h, hshape, dget_dset_ne _ _ hk]

theorem compFold_cons (acc : Dict) (sv : String × Json) (L : List (String × Json)) :
    compFold acc (sv :: L) = (match compStep acc sv with
      | .ok acc2 => compFold acc2 L
      | .error e => .error e) := rfl

/-- Pure form of the outer components loop acting on the components map. -/
def compApply : Dict → List (String × Json) → Except CrawlErr Dict
  | C, [] => .ok C
  | C, sv :: L =>
    match dget C sv.1 with
    | none => compApply (dset C sv.1 sv.2) L
    | some w =>
      match sv.2 with
      | .obj items =>
        match w with
        | .obj S =>
          match applyEntries S items with
          | .ok S2 => compApply (dset C sv.1 (.obj S2)) L
          | .error e => .error e
        | _ =>
          match items with
          | [] => compApply C L
          | _ :: _ => .error .typeError
      | _ => .error .typeError

theorem compApply_cons (C : Dict) (sv : String × Json) (L : List (String × Json)) :
    compApply C (sv :: L) = (match dget C sv.1 with
      | none => compApply (dset C sv.1 sv.2) L
      | some w =>
        match sv.2 with
        | .obj items =>
          match w with
          | .obj S =>
            match applyEntries S items with
            | .ok S2 => compApply (dset C sv.1 (.obj S2)) L
            | .error e => .error e
          | _ =>
            match items with
            | [] => compApply C L
            | _ :: _ => .error .typeError
        | _ => .error .typeError) := rfl

theorem compFold_eq (L : List (String × Json)) :
    ∀ {acc C : Dict}, dget acc "components" = some (.obj C) →
      compFold acc L = (compApply C L).map (fun C2 => dset acc "components" (.obj C2)) := by
  induction L with
  | nil =>
    intro acc C h
    show Except.ok acc = (Except.ok C).map _
    simp only [Except.map]
    rw [dset_same h]
  | cons sv L ih =>
    intro acc C h
    have hstep : compStep acc sv = (match dget C sv.1 with
      | none => .ok (dset acc "components" (.obj (dset C sv.1 sv.2)))
      | some _ =>
        match sv.2 with
        | .obj items => compItemFold sv.1 acc items
        | _ => .error .typeError) := by
      simp only [compStep, h]
    rw [compFold_cons, hstep, compApply_cons]
    cases hC : dget C sv.1 with
    | none =>
      show compFold (dset acc "components" (.obj (dset C sv.1 sv.2))) L
        = (compApply (dset C sv.1 sv.2) L).map (fun C2 => dset acc "components" (.obj C2))
      rw [ih (dget_dset_self _ _ _)]
      cases compApply (dset C sv.1 sv.2) L with
      | error e => rfl
      | ok C2 =>
        simp only [Except.map]
        rw [dset_dset_same]
    | some w =>
      cases hv : sv.2 with
      | obj items =>
        cases w with
        | obj S =>
          show (match compItemFold sv.1 acc items with
            | Except.ok acc2 => compFold acc2 L
            | Except.error e => Except.error e)
            = Except.map (fun C2 => dset acc "components" (Json.obj C2))
                (match applyEntries S items with
                | Except.ok S2 => compApply (dset C sv.1 (Json.obj S2)) L
                | Except.error e => Except.error e)
          rw [compItemFold_eq items h hC]
          cases hA : applyEntries S items with
          | error e => rfl
          | ok S2 =>
            show compFold (dset acc "components" (.obj (dset C sv.1 (.obj S2)))) L
              = (compApply (dset C sv.1 (.obj S2)) L).map (fun C2 => dset acc "components" (.obj C2))
            rw [ih (dget_dset_self _ _ _)]
            cases compApply (dset C sv.1 (.obj S2)) L with
            | error e => rfl
            | ok C2 =>
              simp only [Except.map]
              rw [dset_dset_same]
        | null =>
          cases items with
          | nil =>
            show compFold acc L = (compApply C L).map (fun C2 => dset acc "components" (.obj C2))
            exact ih h
          | cons ni rest =>
            show (match compItemFold sv.1 acc (ni :: rest) with
              | Except.ok acc2 => compFold acc2 L
              | Except.error e => Except.error e)
              = Except.map (fun C2 => dset acc "components" (Json.obj C2))
                  (Except.error CrawlErr.typeError)
            have hitem : compItemStep sv.1 acc ni = .error .typeError := by
              simp only [compItemStep, h, hC]
            rw [compItemFold_cons, hitem]
            rfl
        | bool b =>
          cases items with
          | nil =>
            show compFold acc L = (compApply C L).map (fun C2 => dset acc "components" (.obj C2))
            exact ih h
          | cons ni rest =>
            show (match compItemFold sv.1 acc (ni :: rest) with
              | Except.ok acc2 => compFold acc2 L
              | Except.error e => Except.error e)
              = Except.map (fun C2 => dset acc "components" (Json.obj C2))
                  (Except.error CrawlErr.typeError)
            have hitem : compItemStep sv.1 acc ni = .error .typeError := by
              simp only [compItemStep, h, hC]
            rw [compItemFold_cons, hitem]
            rfl
        | num n =>
          cases items with
          | nil =>
            show compFold acc L = (compApply C L).map (fun C2 => dset acc "components" (.obj C2))
            exact ih h
          | cons ni rest =>
            show (match compItemFold sv.1 acc (ni :: rest) with
              | Except.ok acc2 => compFold acc2 L
              | Except.error e => Except.error e)
              = Except.map (fun C2 => dset acc "components" (Json.obj C2))
                  (Except.error CrawlErr.typeError)
            have hitem : compItemStep sv.1 acc ni = .error .typeError := by
              simp only [compItemStep, h, hC]
            rw [compItemFold_cons, hitem]
            rfl
        | str s =>
          cases items with
          | nil =>
            show compFold acc L = (compApply C L).map (fun C2 => dset acc "components" (.obj C2))
            exact ih h
          | cons ni rest =>
            show (match compItemFold sv.1 acc (ni :: rest) with
              | Except.ok acc2 => compFold acc2 L
              | Except.error e => Except.error e)
              = Except.map (fun C2 => dset acc "components" (Json.obj C2))
                  (Except.error CrawlErr.typeError)
            have hitem : compItemStep sv.1 acc ni = .error .typeError := by
              simp only [compItemStep, h, hC]
            rw [compItemFold_cons, hitem]
            rfl
        | arr xs =>
          cases items with
          | nil =>
            show compFold acc L = (compApply C L).map (fun C2 => dset acc "components" (.obj C2))
            exact ih h
          | cons ni rest =>
            show (match compItemFold sv.1 acc (ni :: rest) with
              | Except.ok acc2 => compFold acc2 L
              | Except.error e => Except.error e)
              = Except.map (fun C2 => dset acc "components" (Json.obj C2))
                  (Except.error CrawlErr.typeError)
            have hitem : compItemStep sv.1 acc ni = .error .typeError := by
              simp only [compItemStep, h, hC]
            rw [compItemFold_cons, hitem]
            rfl
      | null => rfl
      | bool b => rfl
      | num n => rfl
      | str s => rfl
      | arr xs => rfl

theorem compStep_dget_ne {acc acc2 : Dict} {sv : String × Json} {k : String}
    (hk : ¬ k = "components") (h : compStep acc sv = .ok acc2) :
    dget acc2 k = dget acc k := by
  unfold compStep at h
  cases hp : dget acc "components" with
  | none =>
    rw [hp] at h
    exact Except.noConfusion h
  | some w =>
    rw [hp] at h
    cases w with
    | obj C =>
      replace h : (match dget C sv.1 with
        | none => Except.ok (dset acc "components" (Json.obj (dset C sv.1 sv.2)))
        | some _ =>
          match sv.2 with
          | Json.obj items => compItemFold sv.1 acc items
          | _ => Except.error CrawlErr.typeError) = Except.ok acc2 := h
      cases hC : dget C sv.1 with
      | none =>
        rw [hC] at h
        rw [show acc2 = dset acc "components" (Json.obj (dset C sv.1 sv.2)) from
          (Except.ok.inj h).symm, dget_dset_ne _ _ hk]
      | some u =>
        rw [hC] at h
        cases hv : sv.2 with
        | obj items =>
          rw [hv] at h
          replace h : compItemFold sv.1 acc items = Except.ok acc2 := h
          exact compItemFold_dget_ne items hk h
        | null =>
          rw [hv] at h
          exact Except.noConfusion h
        | bool b =>
          rw [hv] at h
          exact Except.noConfusion h
        | num n =>
          rw [hv] at h
          exact Except.noConfusion h
        | str s =>
          rw [hv] at h
          exact Except.noConfusion h
        | arr xs =>
          rw [hv] at h
          exact Except.noConfusion h
    | null => exact Except.noConfusion h
    | bool b => exact Except.noConfusion h
    | num n => exact Except.noConfusion h
    | str s => exact Except.noConfusion h
    | arr xs => exact Except.noConfusion h

theorem compFold_dget_ne (L : List (String × Json)) {k : String}
    (hk : ¬ k = "components") :
    ∀ {acc m : Dict}, compFold acc L = .ok m → dget m k = dget acc k := by
  induction L with
  | nil =>
    intro acc m h
    cases h
    rfl
  | cons sv L ih =>
    intro acc m h
    rw [compFold_cons] at h
    cases hs : compStep acc sv with
    | error e =>
      rw [hs] at h
      exact Except.noConfusion h
    | ok acc2 =>
      rw [hs] at h
      replace h : compFold acc2 L = .ok m := h
      rw [ih h, compStep_dget_ne hk hs]

theorem entriesWF_mapWF {L : List (String × Json)} (h : entriesWF L) : mapWF L := by
  refine ⟨h.1, ?_⟩
  intro p hp c hc
  obtain ⟨c2, hc2, hc2n⟩ := h.2 p hp
  rw [hc2] at hc
  cases Json.obj.inj hc
  exact hc2n

theorem applyEntries_wf {L : List (String × Json)} :
    ∀ {A A2 : Dict}, mapWF A → entriesWF L → applyEntries A L = .ok A2 → mapWF A2 := by
  induction L with
  | nil =>
    intro A A2 hA _ h
    cases h
    exact hA
  | cons pm L ih =>
    intro A A2 hA hL h
    obtain ⟨ms, hms, hmsn⟩ := hL.2 pm (List.mem_cons_self _ _)
    have hkeys : keys (pm :: L) = pm.1 :: keys L := rfl
    have hknd := List.nodup_cons.1 (hkeys ▸ hL.1)
    have hLtail : entriesWF L := ⟨hknd.2, fun p hp => hL.2 p (List.mem_cons_of_mem _ hp)⟩
    rw [applyEntries_cons] at h
    cases hE : mergeEntry (dget A pm.1) pm.2 with
    | error e =>
      rw [hE] at h
      exact Except.noConfusion h
    | ok v2 =>
      rw [hE] at h
      replace h : applyEntries (dset A pm.1 v2) L = .ok A2 := h
      apply ih ?_ hLtail h
      refine ⟨nodup_keys_dset _ _ hA.1, ?_⟩
      intro p hp cc hc
      rcases mem_dset hp with hmem | heq
      · exact hA.2 p hmem cc hc
      · rcases mergeEntry_ok_cases hE with ⟨_, hv2⟩ | ⟨c, ms2, hdsome, hv, hv2⟩
        · have h2 : v2 = Json.obj cc := by
            rw [heq] at hc
            exact hc
          rw [hv2, hms] at h2
          cases Json.obj.inj h2
          exact hmsn
        · have h2 : v2 = Json.obj cc := by
            rw [heq] at hc
            exact hc
          rw [hv2] at h2
          cases Json.obj.inj h2
          have hcn : (keys c).Nodup := hA.2 (pm.1, .obj c) (dget_mem hdsome) c rfl
          exact nodup_keys_dupdate ms2 hcn

theorem applyEntries_self {sec : List (String × Json)} (h : entriesWF sec) :
    applyEntries sec sec = .ok sec := by
  apply applyEntries_fixed
  intro p hp
  exact ⟨dget_eq_some_of_nodup h.1 hp, h.2 p hp⟩

/-- Well-formedness of a stored components map. -/
def compsWF (C : Dict) : Prop :=
  (keys C).Nodup ∧ ∀ p ∈ C, ∀ sec : Dict, p.2 = Json.obj sec → mapWF sec

/-- Shape of a fragment components map as replayed by the merge. -/
def fragCompsWF (L : List (String × Json)) : Prop :=
  (keys L).Nodup ∧ ∀ p ∈ L, ∃ sec : Dict, p.2 = Json.obj sec ∧ entriesWF sec

theorem compApply_dget_of_not_mem {L : List (String × Json)} (s : String)
    (hs : s ∉ keys L) :
    ∀ {C C2 : Dict}, compApply C L = .ok C2 → dget C2 s = dget C s := by
  induction L with
  | nil =>
    intro C C2 h
    cases h
    rfl
  | cons sv L ih =>
    intro C C2 h
    have hkeys : keys (sv :: L) = sv.1 :: keys L := rfl
    have hs1 : ¬ sv.1 = s := fun e => hs (by rw [hkeys]; exact e ▸ List.mem_cons_self _ _)
    have hs2 : s ∉ keys L := fun hm => hs (by rw [hkeys]; exact List.mem_cons_of_mem _ hm)
    rw [compApply_cons] at h
    cases hd : dget C sv.1 with
    | none =>
      rw [hd] at h
      replace h : compApply (dset C sv.1 sv.2) L = .ok C2 := h
      rw [ih hs2 h, dget_dset_ne _ _ (fun e => hs1 e.symm)]
    | some w =>
      rw [hd] at h
      cases hv : sv.2 with
      | obj items =>
        rw [hv] at h
        cases w with
        | obj S =>
          replace h : (match applyEntries S items with
            | Except.ok S2 => compApply (dset C sv.1 (Json.obj S2)) L
            | Except.error e => Except.error e) = Except.ok C2 := h
          cases hA : applyEntries S items with
          | error e =>
            rw [hA] at h
            exact Except.noConfusion h
          | ok S2 =>
            rw [hA] at h
            replace h : compApply (dset C sv.1 (Json.obj S2)) L = .ok C2 := h
            rw [ih hs2 h, dget_dset_ne _ _ (fun e => hs1 e.symm)]
        | null =>
          cases items with
          | nil =>
            replace h : compApply C L = .ok C2 := h
            exact ih hs2 h
          | cons ni rest => exact Except.noConfusion h
        | bool b =>
          cases items with
          | nil =>
            replace h : compApply C L = .ok C2 := h
            exact ih hs2 h
          | cons ni rest => exact Except.noConfusion h
        | num n =>
          cases items with
          | nil =>
            replace h : compApply C L = .ok C2 := h
            exact ih hs2 h
          | cons ni rest => exact Except.noConfusion h
        | str s3 =>
          cases items with
          | nil =>
            replace h : compApply C L = .ok C2 := h
            exact ih hs2 h
          | cons ni rest => exact Except.noConfusion h
        | arr xs =>
          cases items with
          | nil =>
            replace h : compApply C L = .ok C2 := h
            exact ih hs2 h
          | cons ni rest => exact Except.noConfusion h
      | null =>
        rw [hv] at h
        exact Except.noConfusion h
      | bool b =>
        rw [hv] at h
        exact Except.noConfusion h
      | num n =>
        rw [hv] at h
        exact Except.noConfusion h
      | str s3 =>
        rw [hv] at h
        exact Except.noConfusion h
      | arr xs =>
        rw [hv] at h
        exact Except.noConfusion h

theorem compApply_idem (L : List (String × Json)) :
    ∀ {C C2 : Dict}, compsWF C → fragCompsWF L →
      compApply C L = .ok C2 → compApply C2 L = .ok C2 := by
  induction L with
  | nil =>
    intro C C2 _ _ h
    cases h
    rfl
  | cons sv L ih =>
    intro C C2 hC hL h
    obtain ⟨sec, hsec, hsecWF⟩ := hL.2 sv (List.mem_cons_self _ _)
    have hkeys : keys (sv :: L) = sv.1 :: keys L := rfl
    have hknd := List.nodup_cons.1 (hkeys ▸ hL.1)
    have hLtail : fragCompsWF L := ⟨hknd.2, fun p hp => hL.2 p (List.mem_cons_of_mem _ hp)⟩
    rw [compApply_cons] at h
    cases hd : dget C sv.1 with
    | none =>
      rw [hd] at h
      replace h : compApply (dset C sv.1 sv.2) L = .ok C2 := h
      have hget : dget C2 sv.1 = some sv.2 := by
        rw [compApply_dget_of_not_mem _ hknd.1 h, dget_dset_self]
      have hget2 : dget C2 sv.1 = some (Json.obj sec) := by
        rw [← hsec]
        exact hget
      rw [compApply_cons, hget, hsec]
      show (match applyEntries sec sec with
        | Except.ok S2 => compApply (dset C2 sv.1 (Json.obj S2)) L
        | Except.error e => Except.error e) = Except.ok C2
      rw [applyEntries_self hsecWF]
      show compApply (dset C2 sv.1 (Json.obj sec)) L = Except.ok C2
      rw [show dset C2 sv.1 (Json.obj sec) = C2 from dset_same hget2]
      apply ih ?_ hLtail h
      refine ⟨nodup_keys_dset _ _ hC.1, ?_⟩
      intro p hp s2 hs2
      rcases mem_dset hp with hmem | heq
      · exact hC.2 p hmem s2 hs2
      · have h2 : sv.2 = Json.obj s2 := by
          rw [heq] at hs2
          exact hs2
        rw [hsec] at h2
        cases Json.obj.inj h2
        exact entriesWF_mapWF hsecWF
    | some w =>
      rw [hd] at h
      rw [hsec] at h
      cases w with
      | obj S =>
        replace h : (match applyEntries S sec with
          | Except.ok S2 => compApply (dset C sv.1 (Json.obj S2)) L
          | Except.error e => Except.error e) = Except.ok C2 := h
        have hSWF : mapWF S := hC.2 (sv.1, .obj S) (dget_mem hd) S rfl
        cases hA : applyEntries S sec with
        | error e =>
          rw [hA] at h
          exact Except.noConfusion h
        | ok S2 =>
          rw [hA] at h
          replace h : compApply (dset C sv.1 (Json.obj S2)) L = .ok C2 := h
          have hget : dget C2 sv.1 = some (Json.obj S2) := by
            rw [compApply_dget_of_not_mem _ hknd.1 h, dget_dset_self]
          rw [compApply_cons, hget, hsec]
          show (match applyEntries S2 sec with
            | Except.ok S3 => compApply (dset C2 sv.1 (Json.obj S3)) L
            | Except.error e => Except.error e) = Except.ok C2
          rw [applyEntries_idem sec hSWF hsecWF hA]
          show compApply (dset C2 sv.1 (Json.obj S2)) L = Except.ok C2
          rw [show dset C2 sv.1 (Json.obj S2) = C2 from dset_same hget]
          apply ih ?_ hLtail h
          refine ⟨nodup_keys_dset _ _ hC.1, ?_⟩
          intro p hp s2 hs2
          rcases mem_dset hp with hmem | heq
          · exact hC.2 p hmem s2 hs2
          · have h2 : Json.obj S2 = Json.obj s2 := by
              rw [heq] at hs2
              exact hs2
            cases Json.obj.inj h2
            exact applyEntries_wf hSWF hsecWF hA
      | null =>
        cases sec with
        | cons ni rest => exact Except.noConfusion h
        | nil =>
          replace h : compApply C L = .ok C2 := h
          have hget : dget C2 sv.1 = some Json.null := by
            rw [compApply_dget_of_not_mem _ hknd.1 h]
            exact hd
          rw [compApply_cons, hget, hsec]
          show compApply C2 L = Except.ok C2
          exact ih hC hLtail h
      | bool b =>
        cases sec with
        | cons ni rest => exact Except.noConfusion h
        | nil =>
          replace h : compApply C L = .ok C2 := h
          have hget : dget C2 sv.1 = some (Json.bool b) := by
            rw [compApply_dget_of_not_mem _ hknd.1 h]
            exact hd
          rw [compApply_cons, hget, hsec]
          show compApply C2 L = Except.ok C2
          exact ih hC hLtail h
      | num n =>
        cases sec with
        | cons ni rest => exact Except.noConfusion h
        | nil =>
          replace h : compApply C L = .ok C2 := h
          have hget : dget C2 sv.1 = some (Json.num n) := by
            rw [compApply_dget_of_not_mem _ hknd.1 h]
            exact hd
          rw [compApply_cons, hget, hsec]
          show compApply C2 L = Except.ok C2
          exact ih hC hLtail h
      | str s3 =>
        cases sec with
        | cons ni rest => exact Except.noConfusion h
        | nil =>
          replace h : compApply C L = .ok C2 := h
          have hget : dget C2 sv.1 = some (Json.str s3) := by
            rw [compApply_dget_of_not_mem _ hknd.1 h]
            exact hd
          rw [compApply_cons, hget, hsec]
          show compApply C2 L = Except.ok C2
          exact ih hC hLtail h
      | arr xs =>
        cases sec with
        | cons ni rest => exact Except.noConfusion h
        | nil =>
          replace h : compApply C L = .ok C2 := h
          have hget : dget C2 sv.1 = some (Json.arr xs) := by
            rw [compApply_dget_of_not_mem _ hknd.1 h]
            exact hd
          rw [compApply_cons, hget, hsec]
          show compApply C2 L = Except.ok C2
          exact ih hC hLtail h

/-! ## Reduction lemmas for merge_oas_definitions on an object fragment -/

theorem mergePhase2_none {m1 f : Dict} (hc : dget f "components" = none) :
    mergePhase2 m1 (.obj f) = .ok m1 := by
  unfold mergePhase2
  rw [show pyIn "components" (Json.obj f) = .ok (dget f "components").isSome from rfl, hc]
  rfl

theorem mergePhase2_some {m1 f : Dict} {nc : Dict}
    (hc : dget f "components" = some (.obj nc)) :
    mergePhase2 m1 (.obj f) = compFold m1 nc := by
  unfold mergePhase2
  rw [show pyIn "components" (Json.obj f) = .ok (dget f "components").isSome from rfl, hc]
  rw [show pyGetKey (Json.obj f) "components" = (match dget f "components" with
    | some v => Except.ok v
    | none => Except.error CrawlErr.keyError) from rfl, hc]
  rfl

theorem mergePhase2_some_nonobj {m1 f : Dict} {w : Json}
    (hc : dget f "components" = some w) (hw : ∀ nc : Dict, w ≠ Json.obj nc) :
    mergePhase2 m1 (.obj f) = .error .typeError := by
  unfold mergePhase2
  rw [show pyIn "components" (Json.obj f) = .ok (dget f "components").isSome from rfl, hc]
  rw [show pyGetKey (Json.obj f) "components" = (match dget f "components" with
    | some v => Except.ok v
    | none => Except.error CrawlErr.keyError) from rfl, hc]
  cases w with
  | obj nc => exact absurd rfl (hw nc)
  | null => rfl
  | bool b => rfl
  | num n => rfl
  | str s => rfl
  | arr xs => rfl

theorem merge_obj_none_paths {base f : Dict} (hp : dget f "paths" = none) :
    merge_oas_definitions base (.obj f) = mergePhase2 base (.obj f) := by
  unfold merge_oas_definitions
  rw [show pyIn "paths" (Json.obj f) = .ok (dget f "paths").isSome from rfl, hp]
  rfl

theorem merge_obj_some_paths {base f : Dict} {np : Dict}
    (hp : dget f "paths" = some (.obj np)) :
    merge_oas_definitions base (.obj f) = (match pathsFold base np with
      | .ok m1 => mergePhase2 m1 (.obj f)
      | .error e => .error e) := by
  unfold merge_oas_definitions
  rw [show pyIn "paths" (Json.obj f) = .ok (dget f "paths").isSome from rfl, hp]
  rw [show pyGetKey (Json.obj f) "paths" = (match dget f "paths" with
    | some v => Except.ok v
    | none => Except.error CrawlErr.keyError) from rfl, hp]
  rfl

theorem merge_obj_paths_nonobj {base f : Dict} {w : Json}
    (hp : dget f "paths" = some w) (hw : ∀ np : Dict, w ≠ Json.obj np) :
    merge_oas_definitions base (.obj f) = .error .typeError := by
  unfold merge_oas_definitions
  rw [show pyIn "paths" (Json.obj f) = .ok (dget f "paths").isSome from rfl, hp]
  rw [show pyGetKey (Json.obj f) "paths" = (match dget f "paths" with
    | some v => Except.ok v
    | none => Except.error CrawlErr.keyError) from rfl, hp]
  cases w with
  | obj np => exact absurd rfl (hw np)
  | null => rfl
  | bool b => rfl
  | num n => rfl
  | str s => rfl
  | arr xs => rfl

theorem pathsFold_ok_paths {acc m : Dict} {pm : String × Json} {L : List (String × Json)}
    (h : pathsFold acc (pm :: L) = .ok m) :
    ∃ A : Dict, dget acc "paths" = some (.obj A) := by
  rw [pathsFold_cons] at h
  cases hs : pathsStep acc pm with
  | error e =>
    rw [hs] at h
    exact Except.noConfusion h
  | ok acc2 =>
    obtain ⟨A, v2, hA, _, _⟩ := pathsStep_ok_shape hs
    exact ⟨A, hA⟩

theorem compFold_ok_components {acc m : Dict} {sv : String × Json} {L : List (String × Json)}
    (h : compFold acc (sv :: L) = .ok m) :
    ∃ C : Dict, dget acc "components" = some (.obj C) := by
  rw [compFold_cons] at h
  cases hs : compStep acc sv with
  | error e =>
    rw [hs] at h
    exact Except.noConfusion h
  | ok acc2 =>
    unfold compStep at hs
    cases hp : dget acc "components" with
    | none =>
      rw [hp] at hs
      exact Except.noConfusion hs
    | some w =>
      rw [hp] at hs
      cases w with
      | obj C => exact ⟨C, rfl⟩
      | null => exact Except.noConfusion hs
      | bool b => exact Except.noConfusion hs
      | num n => exact Except.noConfusion hs
      | str s => exact Except.noConfusion hs
      | arr xs => exact Except.noConfusion hs

theorem mergePhase2_dget_ne {m1 f m : Dict} {k : String} (hk : ¬ k = "components")
    (h : mergePhase2 m1 (.obj f) = .ok m) : dget m k = dget m1 k := by
  cases hc : dget f "components" with
  | none =>
    rw [mergePhase2_none hc] at h
    cases h
    rfl
  | some w =>
    cases w with
    | obj nc =>
      rw [mergePhase2_some hc] at h
      exact compFold_dget_ne nc hk h
    | null =>
      rw [mergePhase2_some_nonobj hc (fun nc h2 => Json.noConfusion h2)] at h
      exact Except.noConfusion h
    | bool b =>
      rw [mergePhase2_some_nonobj hc (fun nc h2 => Json.noConfusion h2)] at h
      exact Except.noConfusion h
    | num n =>
      rw [mergePhase2_some_nonobj hc (fun nc h2 => Json.noConfusion h2)] at h
      exact Except.noConfusion h
    | str s =>
      rw [mergePhase2_some_nonobj hc (fun nc h2 => Json.noConfusion h2)] at h
      exact Except.noConfusion h
    | arr xs =>
      rw [mergePhase2_some_nonobj hc (fun nc h2 => Json.noConfusion h2)] at h
      exact Except.noConfusion h

/-- Well-formedness of a result tree for the idempotence statement: any
stored paths map and components map have the unique-key structure that
Python dicts always have. -/
def treeWF (d : Dict) : Prop :=
  (∀ A : Dict, dget d "paths" = some (.obj A) → mapWF A) ∧
  (∀ C : Dict, dget d "components" = some (.obj C) → compsWF C)

/-- Well-shapedness of a fragment for the idempotence statement: the
paths section maps each path to an object (a method map) and the
components sections map each name to an object, with unique keys
throughout. -/
def fragWF (f : Dict) : Prop :=
  (∀ A : Dict, dget f "paths" = some (.obj A) → entriesWF A) ∧
  (∀ C : Dict, dget f "components" = some (.obj C) → fragCompsWF C)

theorem mergePhase2_idem {m1 f m : Dict}
    (hb : ∀ C : Dict, dget m1 "components" = some (.obj C) → compsWF C)
    (hf : ∀ C : Dict, dget f "components" = some (.obj C) → fragCompsWF C)
    (h : mergePhase2 m1 (.obj f) = .ok m) : mergePhase2 m (.obj f) = .ok m := by
  cases hc : dget f "components" with
  | none => rw [mergePhase2_none hc] at h ⊢
  | some w =>
    cases w with
    | obj nc =>
      rw [mergePhase2_some hc] at h ⊢
      cases nc with
      | nil =>
        cases h
        rfl
      | cons sv L =>
        obtain ⟨C, hbC⟩ := compFold_ok_components h
        rw [compFold_eq (sv :: L) hbC] at h
        cases hCA : compApply C (sv :: L) with
        | error e =>
          rw [hCA] at h
          exact Except.noConfusion h
        | ok C2 =>
          rw [hCA] at h
          have hm : m = dset m1 "components" (Json.obj C2) := by
            exact (Except.ok.inj h).symm
          have hmC : dget m "components" = some (Json.obj C2) := by
            rw [hm, dget_dset_self]
          rw [compFold_eq (sv :: L) hmC,
            compApply_idem (sv :: L) (hb C hbC) (hf (sv :: L) hc) hCA]
          show Except.ok (dset m "components" (Json.obj C2)) = Except.ok m
          rw [dset_same hmC]
    | null =>
      rw [mergePhase2_some_nonobj hc (fun nc h2 => Json.noConfusion h2)] at h
      exact Except.noConfusion h
    | bool b =>
      rw [mergePhase2_some_nonobj hc (fun nc h2 => Json.noConfusion h2)] at h
      exact Except.noConfusion h
    | num n =>
      rw [mergePhase2_some_nonobj hc (fun nc h2 => Json.noConfusion h2)] at h
      exact Except.noConfusion h
    | str s =>
      rw [mergePhase2_some_nonobj hc (fun nc h2 => Json.noConfusion h2)] at h
      exact Except.noConfusion h
    | arr xs =>
      rw [mergePhase2_some_nonobj hc (fun nc h2 => Json.noConfusion h2)] at h
      exact Except.noConfusion h

theorem merge_idem {base f m : Dict} (hb : treeWF base) (hf : fragWF f)
    (h : merge_oas_definitions base (.obj f) = .ok m) :
    merge_oas_definitions m (.obj f) = .ok m := by
  cases hp : dget f "paths" with
  | none =>
    rw [merge_obj_none_paths hp] at h ⊢
    exact mergePhase2_idem hb.2 hf.2 h
  | some w =>
    cases w with
    | obj np =>
      rw [merge_obj_some_paths hp] at h ⊢
      cases hPF : pathsFold base np with
      | error e =>
        rw [hPF] at h
        exact Except.noConfusion h
      | ok m1 =>
        rw [hPF] at h
        replace h : mergePhase2 m1 (Json.obj f) = .ok m := h
        cases np with
        | nil =>
          have hm1 : m1 = base := by
            have : Except.ok base = Except.ok m1 := hPF
            exact (Except.ok.inj this).symm
          subst hm1
          have hres : mergePhase2 m (Json.obj f) = .ok m := mergePhase2_idem hb.2 hf.2 h
          rw [show pathsFold m ([] : List (String × Json)) = .ok m from rfl]
          exact hres
        | cons pm L =>
          obtain ⟨A, hbA⟩ := pathsFold_ok_paths hPF
          rw [pathsFold_eq (pm :: L) hbA] at hPF
          cases hAE : applyEntries A (pm :: L) with
          | error e =>
            rw [hAE] at hPF
            exact Except.noConfusion hPF
          | ok A2 =>
            rw [hAE] at hPF
            have hm1 : m1 = dset base "paths" (Json.obj A2) := by
              exact (Except.ok.inj hPF).symm
            have hm1A : dget m1 "paths" = some (Json.obj A2) := by
              rw [hm1, dget_dset_self]
            have hmA : dget m "paths" = some (Json.obj A2) := by
              rw [mergePhase2_dget_ne (by decide) h, hm1A]
            have hPF2 : pathsFold m (pm :: L) = .ok m := by
              rw [pathsFold_eq (pm :: L) hmA,
                applyEntries_idem (pm :: L) (hb.1 A hbA) (hf.1 (pm :: L) hp) hAE]
              show Except.ok (dset m "paths" (Json.obj A2)) = Except.ok m
              rw [dset_same hmA]
            rw [hPF2]
            have hbm1 : ∀ C : Dict, dget m1 "components" = some (.obj C) → compsWF C := by
              intro C hC
              apply hb.2 C
              rw [← hC, hm1, dget_dset_ne _ _ (by decide)]
            exact mergePhase2_idem hbm1 hf.2 h
    | null =>
      rw [merge_obj_paths_nonobj hp (fun np h2 => Json.noConfusion h2)] at h
      exact Except.noConfusion h
    | bool b =>
      rw [merge_obj_paths_nonobj hp (fun np h2 => Json.noConfusion h2)] at h
      exact Except.noConfusion h
    | num n =>
      rw [merge_obj_paths_nonobj hp (fun np h2 => Json.noConfusion h2)] at h
      exact Except.noConfusion h
    | str s =>
      rw [merge_obj_paths_nonobj hp (fun np h2 => Json.noConfusion h2)] at h
      exact Except.noConfusion h
    | arr xs =>
      rw [merge_obj_paths_nonobj hp (fun np h2 => Json.noConfusion h2)] at h
      exact Except.noConfusion h

/-! ## The merged value at one path: last write wins per method -/

theorem dget_split {d : Dict} {k : String} {v : Json} (h : dget d k = some v) :
    ∃ L1 L2, d = L1 ++ (k, v) :: L2 ∧ k ∉ keys L1 := by
  induction d with
  | nil => simp [dget] at h
  | cons p d ih =>
    by_cases hp : p.1 = k
    · simp only [dget, hp, if_true, Option.some.injEq] at h
      subst h
      subst hp
      exact ⟨[], d, rfl, by simp [keys]⟩
    · simp only [dget, hp, if_false] at h
      obtain ⟨L1, L2, hd, hk⟩ := ih h
      refine ⟨p :: L1, L2, by rw [hd, List.cons_append], ?_⟩
      rw [show keys (p :: L1) = p.1 :: keys L1 from rfl]
      intro hm
      rcases List.mem_cons.1 hm with h1 | h1
      · exact hp h1.symm
      · exact hk h1

theorem applyEntries_append (L1 L2 : List (String × Json)) :
    ∀ A : Dict, applyEntries A (L1 ++ L2) = (match applyEntries A L1 with
      | .ok A1 => applyEntries A1 L2
      | .error e => .error e) := by
  induction L1 with
  | nil =>
    intro A
    rfl
  | cons pm L1 ih =>
    intro A
    rw [show (pm :: L1) ++ L2 = pm :: (L1 ++ L2) from rfl, applyEntries_cons,
      applyEntries_cons]
    cases hE : mergeEntry (dget A pm.1) pm.2 with
    | error e => rfl
    | ok v2 =>
      show applyEntries (dset A pm.1 v2) (L1 ++ L2) = _
      rw [ih]

theorem applyEntries_at_path {A np A2 : Dict} {path : String} {cur ms : Dict}
    (hA : dget A path = some (.obj cur))
    (hnp : dget np path = some (.obj ms))
    (hnd : (keys np).Nodup)
    (hAE : applyEntries A np = .ok A2) :
    dget A2 path = some (.obj (dupdate cur ms)) := by
  obtain ⟨L1, L2, hsplit, hL1⟩ := dget_split hnp
  have hkeysnp : keys np = keys L1 ++ path :: keys L2 := by
    rw [hsplit]
    simp [keys]
  have hL2 : path ∉ keys L2 := by
    rw [hkeysnp] at hnd
    exact (List.nodup_cons.1 (List.nodup_append.1 hnd).2.1).1
  rw [hsplit, applyEntries_append] at hAE
  cases hA1 : applyEntries A L1 with
  | error e =>
    rw [hA1] at hAE
    exact Except.noConfusion hAE
  | ok A1 =>
    rw [hA1] at hAE
    replace hAE : applyEntries A1 ((path, Json.obj ms) :: L2) = .ok A2 := hAE
    have hA1path : dget A1 path = some (Json.obj cur) := by
      rw [applyEntries_dget_of_not_mem path hL1 hA1, hA]
    replace hAE : (match mergeEntry (dget A1 path) (Json.obj ms) with
      | Except.ok v2 => applyEntries (dset A1 path v2) L2
      | Except.error e => Except.error e) = Except.ok A2 := hAE
    rw [hA1path] at hAE
    replace hAE : applyEntries (dset A1 path (Json.obj (dupdate cur ms))) L2 = .ok A2 := hAE
    rw [applyEntries_dget_of_not_mem path hL2 hAE, dget_dset_self]

theorem merge_paths_lww {base f m : Dict} {A cur fps ms : Dict} {path : String}
    (hbase : dget base "paths" = some (.obj A))
    (hcur : dget A path = some (.obj cur))
    (hf : dget f "paths" = some (.obj fps))
    (hnd : (keys fps).Nodup)
    (hms : dget fps path = some (.obj ms))
    (h : merge_oas_definitions base (.obj f) = .ok m) :
    ∃ A2 : Dict, dget m "paths" = some (.obj A2) ∧
      dget A2 path = some (.obj (dupdate cur ms)) := by
  rw [merge_obj_some_paths hf] at h
  cases hPF : pathsFold base fps with
  | error e =>
    rw [hPF] at h
    exact Except.noConfusion h
  | ok m1 =>
    rw [hPF] at h
    replace h : mergePhase2 m1 (Json.obj f) = .ok m := h
    rw [pathsFold_eq fps hbase] at hPF
    cases hAE : applyEntries A fps with
    | error e =>
      rw [hAE] at hPF
      exact Except.noConfusion hPF
    | ok A2 =>
      rw [hAE] at hPF
      have hm1 : m1 = dset base "paths" (Json.obj A2) := (Except.ok.inj hPF).symm
      refine ⟨A2, ?_, ?_⟩
      · rw [mergePhase2_dget_ne (by decide) h, hm1, dget_dset_self]
      · exact applyEntries_at_path hcur hms hnd hAE

/-- Lookup in a shallow update: a key present in the update wins, a key
absent in the update keeps the stored value. -/
theorem dupdate_lookup {cur ms : Dict} (hnd : (keys ms).Nodup) :
    (∀ meth v, dget ms meth = some v → dget (dupdate cur ms) meth = some v) ∧
    (∀ meth, dget ms meth = none → dget (dupdate cur ms) meth = dget cur meth) := by
  constructor
  · intro meth v hv
    exact dget_dupdate_some (lastGet_eq_of_nodup hnd (dget_mem hv)) cur
  · intro meth hv
    exact dget_dupdate_none (lastGet_none_iff.2 (dget_none_iff.1 hv)) cur

/-! ## The paths/components sections invariant -/

/-- The SpecificationTree shape: the tree holds a paths section and a
components section, both mappings. -/
def hasSectionsB (d : Dict) : Bool :=
  (match dget d "paths" with
   | some (Json.obj _) => true
   | _ => false) &&
  (match dget d "components" with
   | some (Json.obj _) => true
   | _ => false)

theorem hasSectionsB_seedFrom (frag : Dict) : hasSectionsB (seedFrom frag) = true := by
  unfold hasSectionsB seedFrom
  rw [dget_dset_self,
    dget_dset_ne _ _ (by decide : ¬ ("paths" : String) = "components"), dget_dset_self]
  rfl

theorem pathsStep_hasSections {acc acc2 : Dict} {pm : String × Json}
    (hs : pathsStep acc pm = .ok acc2) (h : hasSectionsB acc = true) :
    hasSectionsB acc2 = true := by
  obtain ⟨A, v2, hA, _, hshape⟩ := pathsStep_ok_shape hs
  unfold hasSectionsB at h ⊢
  rw [hshape, dget_dset_self,
    dget_dset_ne _ _ (by decide : ¬ ("components" : String) = "paths")]
  rw [Bool.and_eq_true] at h ⊢
  exact ⟨rfl, h.2⟩

theorem pathsFold_hasSections (L : List (String × Json)) :
    ∀ {acc m : Dict}, pathsFold acc L = .ok m → hasSectionsB acc = true →
      hasSectionsB m = true := by
  induction L with
  | nil =>
    intro acc m h hs
    cases h
    exact hs
  | cons pm L ih =>
    intro acc m h hs
    rw [pathsFold_cons] at h
    cases hstep : pathsStep acc pm with
    | error e =>
      rw [hstep] at h
      exact Except.noConfusion h
    | ok acc2 =>
      rw [hstep] at h
      replace h : pathsFold acc2 L = .ok m := h
      exact ih h (pathsStep_hasSections hstep hs)

theorem compItemStep_hasSections {sec : String} {acc acc2 : Dict} {ni : String × Json}
    (hs : compItemStep sec acc ni = .ok acc2) (h : hasSectionsB acc = true) :
    hasSectionsB acc2 = true := by
  obtain ⟨C, S, v2, hC, _, _, hshape⟩ := compItemStep_ok_shape hs
  unfold hasSectionsB at h ⊢
  rw [hshape, dget_dset_self,
    dget_dset_ne _ _ (by decide : ¬ ("paths" : String) = "components")]
  rw [Bool.and_eq_true] at h ⊢
  exact ⟨h.1, rfl⟩

theorem compItemFold_hasSections (items : List (String × Json)) {sec : String} :
    ∀ {acc m : Dict}, compItemFold sec acc items = .ok m → hasSectionsB acc = true →
      hasSectionsB m = true := by
  induction items with
  | nil =>
    intro acc m h hs
    cases h
    exact hs
  | cons ni items ih =>
    intro acc m h hs
    rw [compItemFold_cons] at h
    cases hstep : compItemStep sec acc ni with
    | error e =>
      rw [hstep] at h
      exact Except.noConfusion h
    | ok acc2 =>
      rw [hstep] at h
      replace h : compItemFold sec acc2 items = .ok m := h
      exact ih h (compItemStep_hasSections hstep hs)

theorem compStep_hasSections {acc acc2 : Dict} {sv : String × Json}
    (hs : compStep acc sv = .ok acc2) (h : hasSectionsB acc = true) :
    hasSectionsB acc2 = true := by
  unfold compStep at hs
  cases hp : dget acc "components" with
  | none =>
    rw [hp] at hs
    exact Except.noConfusion hs
  | some w =>
    rw [hp] at hs
    cases w with
    | obj C =>
      replace hs : (match dget C sv.1 with
        | none => Except.ok (dset acc "components" (Json.obj (dset C sv.1 sv.2)))
        | some _ =>
          match sv.2 with
          | Json.obj items => compItemFold sv.1 acc items
          | _ => Except.error CrawlErr.typeError) = Except.ok acc2 := hs
      cases hC : dget C sv.1 with
      | none =>
        rw [hC] at hs
        rw [show acc2 = dset acc "components" (Json.obj (dset C sv.1 sv.2)) from
          (Except.ok.inj hs).symm]
        unfold hasSectionsB at h ⊢
        rw [dget_dset_self,
          dget_dset_ne _ _ (by decide : ¬ ("paths" : String) = "components")]
        rw [Bool.and_eq_true] at h ⊢
        exact ⟨h.1, rfl⟩
      | some u =>
        rw [hC] at hs
        cases hv : sv.2 with
        | obj items =>
          rw [hv] at hs
          replace hs : compItemFold sv.1 acc items = Except.ok acc2 := hs
          exact compItemFold_hasSections items hs h
        | null =>
          rw [hv] at hs
          exact Except.noConfusion hs
        | bool b =>
          rw [hv] at hs
          exact Except.noConfusion hs
        | num n =>
          rw [hv] at hs
          exact Except.noConfusion hs
        | str s =>
          rw [hv] at hs
          exact Except.noConfusion hs
        | arr xs =>
          rw [hv] at hs
          exact Except.noConfusion hs
    | null => exact Except.noConfusion hs
    | bool b => exact Except.noConfusion hs
    | num n => exact Except.noConfusion hs
    | str s => exact Except.noConfusion hs
    | arr xs => exact Except.noConfusion hs

theorem compFold_hasSections (L : List (String × Json)) :
    ∀ {acc m : Dict}, compFold acc L = .ok m → hasSectionsB acc = true →
      hasSectionsB m = true := by
  induction L with
  | nil =>
    intro acc m h hs
    cases h
    exact hs
  | cons sv L ih =>
    intro acc m h hs
    rw [compFold_cons] at h
    cases hstep : compStep acc sv with
    | error e =>
      rw [hstep] at h
      exact Except.noConfusion h
    | ok acc2 =>
      rw [hstep] at h
      replace h : compFold acc2 L = .ok m := h
      exact ih h (compStep_hasSections hstep hs)

theorem mergePhase2_hasSections {m1 f m : Dict} (h : mergePhase2 m1 (.obj f) = .ok m)
    (hs : hasSectionsB m1 = true) : hasSectionsB m = true := by
  cases hc : dget f "components" with
  | none =>
    rw [mergePhase2_none hc] at h
    cases h
    exact hs
  | some w =>
    cases w with
    | obj nc =>
      rw [mergePhase2_some hc] at h
      exact compFold_hasSections nc h hs
    | null =>
      rw [mergePhase2_some_nonobj hc (fun nc h2 => Json.noConfusion h2)] at h
      exact Except.noConfusion h
    | bool b =>
      rw [mergePhase2_some_nonobj hc (fun nc h2 => Json.noConfusion h2)] at h
      exact Except.noConfusion h
    | num n =>
      rw [mergePhase2_some_nonobj hc (fun nc h2 => Json.noConfusion h2)] at h
      exact Except.noConfusion h
    | str s =>
      rw [mergePhase2_some_nonobj hc (fun nc h2 => Json.noConfusion h2)] at h
      exact Except.noConfusion h
    | arr xs =>
      rw [mergePhase2_some_nonobj hc (fun nc h2 => Json.noConfusion h2)] at h
      exact Except.noConfusion h

theorem merge_not_obj_ok {base m : Dict} {new : Json}
    (hnew : ∀ f : Dict, new ≠ Json.obj f)
    (h : merge_oas_definitions base new = .ok m) : m = base := by
  cases new with
  | obj f => exact absurd rfl (hnew f)
  | null => exact Except.noConfusion h
  | bool b => exact Except.noConfusion h
  | num n => exact Except.noConfusion h
  | str s =>
    unfold merge_oas_definitions at h
    rw [show pyIn "paths" (Json.str s) = .ok (chHasSub "paths".data s.data) from rfl] at h
    cases hb : chHasSub "paths".data s.data with
    | true =>
      rw [hb] at h
      replace h : (match pyGetKey (Json.str s) "paths" with
        | Except.error e => Except.error e
        | Except.ok (Json.obj np) =>
          match pathsFold base np with
          | Except.ok m1 => mergePhase2 m1 (Json.str s)
          | Except.error e => Except.error e
        | Except.ok _ => Except.error CrawlErr.typeError) = Except.ok m := h
      rw [show pyGetKey (Json.str s) "paths" = Except.error CrawlErr.typeError from rfl] at h
      exact Except.noConfusion h
    | false =>
      rw [hb] at h
      replace h : mergePhase2 base (Json.str s) = Except.ok m := h
      unfold mergePhase2 at h
      rw [show pyIn "components" (Json.str s)
        = .ok (chHasSub "components".data s.data) from rfl] at h
      cases hb2 : chHasSub "components".data s.data with
      | true =>
        rw [hb2] at h
        replace h : (match pyGetKey (Json.str s) "components" with
          | Except.error e => Except.error e
          | Except.ok (Json.obj nc) => compFold base nc
          | Except.ok _ => Except.error CrawlErr.typeError) = Except.ok m := h
        rw [show pyGetKey (Json.str s) "components"
          = Except.error CrawlErr.typeError from rfl] at h
        exact Except.noConfusion h
      | false =>
        rw [hb2] at h
        exact (Except.ok.inj h).symm
  | arr xs =>
    unfold merge_oas_definitions at h
    rw [show pyIn "paths" (Json.arr xs) = .ok (xs.contains (Json.str "paths")) from rfl] at h
    cases hb : xs.contains (Json.str "paths") with
    | true =>
      rw [hb] at h
      replace h : (match pyGetKey (Json.arr xs) "paths" with
        | Except.error e => Except.error e
        | Except.ok (Json.obj np) =>
          match pathsFold base np with
          | Except.ok m1 => mergePhase2 m1 (Json.arr xs)
          | Except.error e => Except.error e
        | Except.ok _ => Except.error CrawlErr.typeError) = Except.ok m := h
      rw [show pyGetKey (Json.arr xs) "paths" = Except.error CrawlErr.typeError from rfl] at h
      exact Except.noConfusion h
    | false =>
      rw [hb] at h
      replace h : mergePhase2 base (Json.arr xs) = Except.ok m := h
      unfold mergePhase2 at h
      rw [show pyIn "components" (Json.arr xs)
        = .ok (xs.contains (Json.str "components")) from rfl] at h
      cases hb2 : xs.contains (Json.str "components") with
      | true =>
        rw [hb2] at h
        replace h : (match pyGetKey (Json.arr xs) "components" with
          | Except.error e => Except.error e
          | Except.ok (Json.obj nc) => compFold base nc
          | Except.ok _ => Except.error CrawlErr.typeError) = Except.ok m := h
        rw [show pyGetKey (Json.arr xs) "components"
          = Except.error CrawlErr.typeError from rfl] at h
        exact Except.noConfusion h
      | false =>
        rw [hb2] at h
        exact (Except.ok.inj h).symm

theorem merge_hasSections {base m : Dict} {new : Json}
    (h : merge_oas_definitions base new = .ok m)
    (hs : hasSectionsB base = true) : hasSectionsB m = true := by
  cases new with
  | obj f =>
    cases hp : dget f "paths" with
    | none =>
      rw [merge_obj_none_paths hp] at h
      exact mergePhase2_hasSections h hs
    | some w =>
      cases w with
      | obj np =>
        rw [merge_obj_some_paths hp] at h
        cases hPF : pathsFold base np with
        | error e =>
          rw [hPF] at h
          exact Except.noConfusion h
        | ok m1 =>
          rw [hPF] at h
          replace h : mergePhase2 m1 (Json.obj f) = .ok m := h
          exact mergePhase2_hasSections h (pathsFold_hasSections np hPF hs)
      | null =>
        rw [merge_obj_paths_nonobj hp (fun np h2 => Json.noConfusion h2)] at h
        exact Except.noConfusion h
      | bool b =>
        rw [merge_obj_paths_nonobj hp (fun np h2 => Json.noConfusion h2)] at h
        exact Except.noConfusion h
      | num n =>
        rw [merge_obj_paths_nonobj hp (fun np h2 => Json.noConfusion h2)] at h
        exact Except.noConfusion h
      | str s =>
        rw [merge_obj_paths_nonobj hp (fun np h2 => Json.noConfusion h2)] at h
        exact Except.noConfusion h
      | arr xs =>
        rw [merge_obj_paths_nonobj hp (fun np h2 => Json.noConfusion h2)] at h
        exact Except.noConfusion h
  | null => exact Except.noConfusion h
  | bool b => exact Except.noConfusion h
  | num n => exact Except.noConfusion h
  | str s =>
    rw [merge_not_obj_ok (fun f h2 => Json.noConfusion h2) h]
    exact hs
  | arr xs =>
    rw [merge_not_obj_ok (fun f h2 => Json.noConfusion h2) h]
    exact hs

/-! ## Finalization and crawl-trace lemmas -/

theorem dget_ddel_self (d : Dict) (k : String) : dget (ddel d k) k = none := by
  induction d with
  | nil => rfl
  | cons p d ih =>
    by_cases hp : p.1 = k
    · rw [show ddel (p :: d) k = ddel d k from by simp [ddel, List.filter_cons, hp]]
      exact ih
    · rw [show ddel (p :: d) k = p :: ddel d k from by simp [ddel, List.filter_cons, hp]]
      rw [show dget (p :: ddel d k) k
        = if p.1 = k then some p.2 else dget (ddel d k) k from rfl]
      rw [if_neg hp]
      exact ih

theorem dget_ddel_ne (d : Dict) {k k2 : String} (h : ¬ k2 = k) :
    dget (ddel d k) k2 = dget d k2 := by
  induction d with
  | nil => rfl
  | cons p d ih =>
    by_cases hp : p.1 = k
    · rw [show ddel (p :: d) k = ddel d k from by simp [ddel, List.filter_cons, hp]]
      rw [ih, show dget (p :: d) k2 = if p.1 = k2 then some p.2 else dget d k2 from rfl]
      rw [if_neg (by rw [hp]; exact fun e => h e.symm)]
    · rw [show ddel (p :: d) k = p :: ddel d k from by simp [ddel, List.filter_cons, hp]]
      rw [show dget (p :: ddel d k) k2
        = if p.1 = k2 then some p.2 else dget (ddel d k) k2 from rfl,
        show dget (p :: d) k2 = if p.1 = k2 then some p.2 else dget d k2 from rfl, ih]

theorem dget_stripKeys_fauxas (d : Dict) : dget (stripKeys d) "x-readme-fauxas" = none := by
  unfold stripKeys
  rw [dget_ddel_ne _ (by decide : ¬ ("x-readme-fauxas" : String) = "_id"), dget_ddel_self]

theorem dget_stripKeys_id (d : Dict) : dget (stripKeys d) "_id" = none := by
  unfold stripKeys
  rw [dget_ddel_self]

theorem dget_stripKeys_ne (d : Dict) {k : String} (h1 : ¬ k = "x-readme-fauxas")
    (h2 : ¬ k = "_id") : dget (stripKeys d) k = dget d k := by
  unfold stripKeys
  rw [dget_ddel_ne _ h2, dget_ddel_ne _ h1]

theorem string_append_cancel {a s t : String} (h : a ++ s = a ++ t) : s = t := by
  have hd : (a ++ s).data = (a ++ t).data := by rw [h]
  rw [String.data_append, String.data_append] at hd
  exact String.ext (List.append_cancel_left hd)

theorem pageStep_trace (env : String → RawPage) (urlBase : String) (nonRef : List Json)
    (pg : Json) (oas : Dict) :
    ∀ u ∈ (pageStep env urlBase nonRef pg oas).1,
      ∃ s : String, u = urlBase ++ s ∧ Json.str s ∉ nonRef := by
  cases pg with
  | obj pd =>
    cases hs : dget pd "slug" with
    | none =>
      have heq : pageStep env urlBase nonRef (Json.obj pd) oas
          = ([], .error .keyError) := by
        simp [pageStep, hs]
      rw [heq]
      intro u hu
      simp at hu
    | some slug =>
      cases hhash : jsonHashable slug with
      | false =>
        have heq : pageStep env urlBase nonRef (Json.obj pd) oas
            = ([], .error .typeError) := by
          simp [pageStep, hs, hhash]
        rw [heq]
        intro u hu
        simp at hu
      | true =>
        by_cases hmem : slug ∈ nonRef
        · cases ht : dget pd "title" with
          | none =>
            have heq : pageStep env urlBase nonRef (Json.obj pd) oas
                = ([], .error .keyError) := by
              simp [pageStep, hs, hhash, hmem, ht]
            rw [heq]
            intro u hu
            simp at hu
          | some t =>
            have heq : pageStep env urlBase nonRef (Json.obj pd) oas
                = ([], .ok none) := by
              simp [pageStep, hs, hhash, hmem, ht]
            rw [heq]
            intro u hu
            simp at hu
        · cases ht : dget pd "title" with
          | none =>
            have heq : pageStep env urlBase nonRef (Json.obj pd) oas
                = ([], .error .keyError) := by
              simp [pageStep, hs, hhash, hmem, ht]
            rw [heq]
            intro u hu
            simp at hu
          | some t =>
            cases slug with
            | str s =>
              have heq : pageStep env urlBase nonRef (Json.obj pd) oas
                  = ([urlBase ++ s], pageVisit env (urlBase ++ s) oas) := by
                simp [pageStep, hs, hhash, hmem, ht]
              rw [heq]
              intro u hu
              rcases List.mem_singleton.1 hu with h1
              exact ⟨s, h1, hmem⟩
            | null =>
              have heq : pageStep env urlBase nonRef (Json.obj pd) oas
                  = ([], .error .typeError) := by
                simp [pageStep, hs, hhash, hmem, ht]
              rw [heq]
              intro u hu
              simp at hu
            | bool b =>
              have heq : pageStep env urlBase nonRef (Json.obj pd) oas
                  = ([], .error .typeError) := by
                simp [pageStep, hs, hhash, hmem, ht]
              rw [heq]
              intro u hu
              simp at hu
            | num n =>
              have heq : pageStep env urlBase nonRef (Json.obj pd) oas
                  = ([], .error .typeError) := by
                simp [pageStep, hs, hhash, hmem, ht]
              rw [heq]
              intro u hu
              simp at hu
            | arr xs =>
              have heq : pageStep env urlBase nonRef (Json.obj pd) oas
                  = ([], .error .typeError) := by
                simp [pageStep, hs, hhash, hmem, ht]
              rw [heq]
              intro u hu
              simp at hu
            | obj d2 =>
              have heq : pageStep env urlBase nonRef (Json.obj pd) oas
                  = ([], .error .typeError) := by
                simp [pageStep, hs, hhash, hmem, ht]
              rw [heq]
              intro u hu
              simp at hu
  | null =>
    intro u hu
    simp [pageStep] at hu
  | bool b =>
    intro u hu
    simp [pageStep] at hu
  | num n =>
    intro u hu
    simp [pageStep] at hu
  | str s =>
    intro u hu
    simp [pageStep] at hu
  | arr xs =>
    intro u hu
    simp [pageStep] at hu

theorem crawlPages_cons (env : String → RawPage) (urlBase : String) (nonRef : List Json)
    (pg : Json) (rest : List Json) (oas : Dict) :
    crawlPages env urlBase nonRef (pg :: rest) oas
      = (match pageStep env urlBase nonRef pg oas with
        | (us, .error e) => (us, .error e)
        | (us, .ok none) =>
          let r := crawlPages env urlBase nonRef rest oas
          (us ++ r.1, r.2)
        | (us, .ok (some oas2)) =>
          let r := crawlPages env urlBase nonRef rest oas2
          (us ++ r.1, r.2)) := rfl

theorem crawlPages_trace (env : String → RawPage) (urlBase : String) (nonRef : List Json)
    (pages : List Json) :
    ∀ {oas : Dict}, ∀ u ∈ (crawlPages env urlBase nonRef pages oas).1,
      ∃ s : String, u = urlBase ++ s ∧ Json.str s ∉ nonRef := by
  induction pages with
  | nil =>
    intro oas u hu
    simp [crawlPages] at hu
  | cons pg rest ih =>
    intro oas u hu
    rw [crawlPages_cons] at hu
    have hus := pageStep_trace env urlBase nonRef pg oas
    rcases hps : pageStep env urlBase nonRef pg oas with ⟨us, r⟩
    rw [hps] at hu hus
    cases r with
    | error e =>
      exact hus u hu
    | ok o =>
      cases o with
      | none =>
        replace hu : u ∈ us ++ (crawlPages env urlBase nonRef rest oas).1 := hu
        rcases List.mem_append.1 hu with h1 | h1
        · exact hus u h1
        · exact ih u h1
      | some oas2 =>
        replace hu : u ∈ us ++ (crawlPages env urlBase nonRef rest oas2).1 := hu
        rcases List.mem_append.1 hu with h1 | h1
        · exact hus u h1
        · exact ih u h1

theorem crawlRefs_cons (env : String → RawPage) (urlBase : String) (nonRef : List Json)
    (ref : Json) (rest : List Json) (oas : Dict) :
    crawlRefs env urlBase nonRef (ref :: rest) oas
      = (match ref with
        | .obj rd =>
          match dget rd "pages" with
          | none => ([], .error .keyError)
          | some pagesJ =>
            match pyIter pagesJ with
            | .error e => ([], .error e)
            | .ok pages =>
              match crawlPages env urlBase nonRef pages oas with
              | (us, .error e) => (us, .error e)
              | (us, .ok oas2) =>
                let r := crawlRefs env urlBase nonRef rest oas2
                (us ++ r.1, r.2)
        | _ => ([], .error .typeError)) := rfl

theorem crawlRefs_trace (env : String → RawPage) (urlBase : String) (nonRef : List Json)
    (refs : List Json) :
    ∀ {oas : Dict}, ∀ u ∈ (crawlRefs env urlBase nonRef refs oas).1,
      ∃ s : String, u = urlBase ++ s ∧ Json.str s ∉ nonRef := by
  induction refs with
  | nil =>
    intro oas u hu
    simp [crawlRefs] at hu
  | cons ref rest ih =>
    intro oas u hu
    cases ref with
    | obj rd =>
      replace hu : u ∈ ((match dget rd "pages" with
        | none => (([] : List String), (Except.error CrawlErr.keyError : Except CrawlErr Dict))
        | some pagesJ =>
          match pyIter pagesJ with
          | Except.error e => ([], Except.error e)
          | Except.ok pages =>
            match crawlPages env urlBase nonRef pages oas with
            | (us, Except.error e) => (us, Except.error e)
            | (us, Except.ok oas2) =>
              let r := crawlRefs env urlBase nonRef rest oas2
              (us ++ r.1, r.2)).1) := hu
      cases hpg : dget rd "pages" with
      | none =>
        rw [hpg] at hu
        replace hu : u ∈ ([] : List String) := hu
        simp at hu
      | some pagesJ =>
        rw [hpg] at hu
        replace hu : u ∈ ((match pyIter pagesJ with
          | Except.error e => (([] : List String), (Except.error e : Except CrawlErr Dict))
          | Except.ok pages =>
            match crawlPages env urlBase nonRef pages oas with
            | (us, Except.error e) => (us, Except.error e)
            | (us, Except.ok oas2) =>
              let r := crawlRefs env urlBase nonRef rest oas2
              (us ++ r.1, r.2)).1) := hu
        cases hit : pyIter pagesJ with
        | error e =>
          rw [hit] at hu
          replace hu : u ∈ ([] : List String) := hu
          simp at hu
        | ok pages =>
          rw [hit] at hu
          have hcp := @crawlPages_trace env urlBase nonRef pages oas
          replace hu : u ∈ ((match crawlPages env urlBase nonRef pages oas with
            | (us, Except.error e) => (us, Except.error e)
            | (us, Except.ok oas2) =>
              let r := crawlRefs env urlBase nonRef rest oas2
              (us ++ r.1, r.2)).1) := hu
          rcases hps : crawlPages env urlBase nonRef pages oas with ⟨us, r⟩
          rw [hps] at hu hcp
          cases r with
          | error e =>
            exact hcp u hu
          | ok oas2 =>
            replace hu : u ∈ us ++ (crawlRefs env urlBase nonRef rest oas2).1 := hu
            rcases List.mem_append.1 hu with h1 | h1
            · exact hcp u h1
            · exact ih u h1
    | null =>
      replace hu : u ∈ ([] : List String) := hu
      simp at hu
    | bool b =>
      replace hu : u ∈ ([] : List String) := hu
      simp at hu
    | num n =>
      replace hu : u ∈ ([] : List String) := hu
      simp at hu
    | str s =>
      replace hu : u ∈ ([] : List String) := hu
      simp at hu
    | arr xs =>
      replace hu : u ∈ ([] : List String) := hu
      simp at hu

theorem mainModel_ok_strip {startUrl : String} {env : String → RawPage} {tr : List String}
    {d : Dict} (h : mainModel startUrl env = (tr, .ok d)) :
    ∃ oas : Dict, d = stripKeys oas := by
  unfold mainModel at h
  cases hsu : mainSetup startUrl env with
  | error e =>
    rw [hsu] at h
    exact Except.noConfusion (congrArg Prod.snd h)
  | ok sd =>
    rw [hsu] at h
    replace h : (match pyIter sd.refs with
      | .error e => (([] : List String), (.error e : Except CrawlErr Dict))
      | .ok refs =>
        match crawlRefs env sd.urlBase sd.nonRef refs sd.oas0 with
        | (tr2, .ok oas) => (tr2, .ok (stripKeys oas))
        | (tr2, .error e) => (tr2, .error e)) = (tr, .ok d) := h
    cases hit : pyIter sd.refs with
    | error e =>
      rw [hit] at h
      exact Except.noConfusion (congrArg Prod.snd h)
    | ok refs =>
      rw [hit] at h
      replace h : (match crawlRefs env sd.urlBase sd.nonRef refs sd.oas0 with
        | (tr2, .ok oas) => (tr2, Except.ok (stripKeys oas))
        | (tr2, .error e) => (tr2, Except.error e)) = (tr, Except.ok d) := h
      rcases hcr : crawlRefs env sd.urlBase sd.nonRef refs sd.oas0 with ⟨tr2, r⟩
      rw [hcr] at h
      cases r with
      | ok oas => exact ⟨oas, (Except.ok.inj (congrArg Prod.snd h)).symm⟩
      | error e => exact Except.noConfusion (congrArg Prod.snd h)

theorem crawlPages_abort {env : String → RawPage} {urlBase : String} {nonRef : List Json}
    {pg : Json} (rest : List Json) {oas : Dict} {us : List String} {e : CrawlErr}
    (h : pageStep env urlBase nonRef pg oas = (us, .error e)) :
    crawlPages env urlBase nonRef (pg :: rest) oas = (us, .error e) := by
  rw [crawlPages_cons, h]

theorem crawlPages_skip {env : String → RawPage} {urlBase : String} {nonRef : List Json}
    {pg : Json} (rest : List Json) {oas : Dict} {us : List String}
    (h : pageStep env urlBase nonRef pg oas = (us, .ok none)) :
    crawlPages env urlBase nonRef (pg :: rest) oas
      = (us ++ (crawlPages env urlBase nonRef rest oas).1,
         (crawlPages env urlBase nonRef rest oas).2) := by
  rw [crawlPages_cons, h]

theorem fetch_marker_missing (t : Bool) (payload : String) :
    fetch_ssr_props (.page false t payload) = .error .assertionError := rfl

theorem fetch_recovery_incomplete {payload : String}
    (h : (dget (parse_truncated_json payload) "oasDefinition").isSome = false) :
    fetch_ssr_props (.page true true payload) = .error .assertionError := by
  simp [fetch_ssr_props, h]

theorem pageStep_skip_fetch_failure {env : String → RawPage} {urlBase : String}
    {nonRef : List Json} {s t : String} {oas : Dict}
    (hmem : Json.str s ∉ nonRef)
    (henv : env (urlBase ++ s) = RawPage.notFoundCached) :
    pageStep env urlBase nonRef (.obj [("slug", .str s), ("title", .str t)]) oas
      = ([urlBase ++ s], .ok none) := by
  have hv : pageVisit env (urlBase ++ s) oas = .ok none := by
    unfold pageVisit
    rw [henv]
    rfl
  simp [pageStep, dget, hmem, hv, jsonHashable]

/-! ## Decidable checks implying the well-formedness predicates -/

def mapWFb (A : Dict) : Bool :=
  decide (keys A).Nodup && A.all (fun p => match p.2 with
    | Json.obj c => decide (keys c).Nodup
    | _ => true)

def entriesWFb (L : List (String × Json)) : Bool :=
  decide (keys L).Nodup && L.all (fun p => match p.2 with
    | Json.obj c => decide (keys c).Nodup
    | _ => false)

def compsWFb (C : Dict) : Bool :=
  decide (keys C).Nodup && C.all (fun p => match p.2 with
    | Json.obj sec => mapWFb sec
    | _ => true)

def fragCompsWFb (L : List (String × Json)) : Bool :=
  decide (keys L).Nodup && L.all (fun p => match p.2 with
    | Json.obj sec => entriesWFb sec
    | _ => false)

def treeWFb (d : Dict) : Bool :=
  (match dget d "paths" with
   | some (Json.obj A) => mapWFb A
   | _ => true) &&
  (match dget d "components" with
   | some (Json.obj C) => compsWFb C
   | _ => true)

def fragWFb (f : Dict) : Bool :=
  (match dget f "paths" with
   | some (Json.obj A) => entriesWFb A
   | _ => true) &&
  (match dget f "components" with
   | some (Json.obj C) => fragCompsWFb C
   | _ => true)

theorem mapWFb_sound {A : Dict} (h : mapWFb A = true) : mapWF A := by
  rw [mapWFb, Bool.and_eq_true, List.all_eq_true] at h
  refine ⟨of_decide_eq_true h.1, ?_⟩
  intro p hp c hc
  have h2 := h.2 p hp
  rw [hc] at h2
  exact of_decide_eq_true h2

theorem entriesWFb_sound {L : List (String × Json)} (h : entriesWFb L = true) :
    entriesWF L := by
  rw [entriesWFb, Bool.and_eq_true, List.all_eq_true] at h
  refine ⟨of_decide_eq_true h.1, ?_⟩
  intro p hp
  have h2 := h.2 p hp
  cases hv : p.2 with
  | obj c =>
    rw [hv] at h2
    exact ⟨c, rfl, of_decide_eq_true h2⟩
  | null =>
    rw [hv] at h2
    cases h2
  | bool b =>
    rw [hv] at h2
    cases h2
  | num n =>
    rw [hv] at h2
    cases h2
  | str s =>
    rw [hv] at h2
    cases h2
  | arr xs =>
    rw [hv] at h2
    cases h2

theorem compsWFb_sound {C : Dict} (h : compsWFb C = true) : compsWF C := by
  rw [compsWFb, Bool.and_eq_true, List.all_eq_true] at h
  refine ⟨of_decide_eq_true h.1, ?_⟩
  intro p hp sec hsec
  have h2 := h.2 p hp
  rw [hsec] at h2
  exact mapWFb_sound h2

theorem fragCompsWFb_sound {L : List (String × Json)} (h : fragCompsWFb L = true) :
    fragCompsWF L := by
  rw [fragCompsWFb, Bool.and_eq_true, List.all_eq_true] at h
  refine ⟨of_decide_eq_true h.1, ?_⟩
  intro p hp
  have h2 := h.2 p hp
  cases hv : p.2 with
  | obj sec =>
    rw [hv] at h2
    exact ⟨sec, rfl, entriesWFb_sound h2⟩
  | null =>
    rw [hv] at h2
    cases h2
  | bool b =>
    rw [hv] at h2
    cases h2
  | num n =>
    rw [hv] at h2
    cases h2
  | str s =>
    rw [hv] at h2
    cases h2
  | arr xs =>
    rw [hv] at h2
    cases h2

theorem treeWFb_sound {d : Dict} (h : treeWFb d = true) : treeWF d := by
  rw [treeWFb, Bool.and_eq_true] at h
  constructor
  · intro A hA
    have h1 := h.1
    rw [hA] at h1
    exact mapWFb_sound h1
  · intro C hC
    have h2 := h.2
    rw [hC] at h2
    exact compsWFb_sound h2

theorem fragWFb_sound {f : Dict} (h : fragWFb f = true) : fragWF f := by
  rw [fragWFb, Bool.and_eq_true] at h
  constructor
  · intro A hA
    have h1 := h.1
    rw [hA] at h1
    exact entriesWFb_sound h1
  · intro C hC
    have h2 := h.2
    rw [hC] at h2
    exact fragCompsWFb_sound h2

/-! ## The claims -/

/-- C3: on the truncated payload consisting of an open brace, the
complete pairs a to "1" and b to "2", and the cut-off pair c to "tru,
parse_truncated_json returns exactly the two complete pairs, in order,
and raises nothing; the incomplete trailing pair is dropped. -/
theorem c3_theorem :
    parse_truncated_json "\x7b\"a\":\"1\",\"b\":\"2\",\"c\":\"tru"
      = [("a", Json.str "1"), ("b", Json.str "2")] := by decide

/-- C10: parse_truncated_json never raises: it is total, reducing to
applying the pair list found by the scanner to the empty dict, and any
candidate pair that fails to deserialize as a one-entry JSON object is
skipped without affecting the others. -/
theorem c10_theorem :
    (∀ s : String, parse_truncated_json s = applyPairs [] (scanPairs s)) ∧
    (∀ (res : Dict) (xs ys : List (List Char)) (p : List Char),
      decodePair p = none →
      applyPairs res (xs ++ p :: ys) = applyPairs res (xs ++ ys)) := by
  constructor
  · intro s
    rfl
  · intro res xs ys p hp
    induction xs generalizing res with
    | nil =>
      rw [show ([] : List (List Char)) ++ p :: ys = p :: ys from rfl,
        show ([] : List (List Char)) ++ ys = ys from rfl]
      show (match decodePair p with
        | some d => applyPairs (dupdate res d) ys
        | none => applyPairs res ys) = applyPairs res ys
      rw [hp]
    | cons x xs ih =>
      rw [List.cons_append, List.cons_append]
      show (match decodePair x with
        | some d => applyPairs (dupdate res d) (xs ++ p :: ys)
        | none => applyPairs res (xs ++ p :: ys)) = (match decodePair x with
        | some d => applyPairs (dupdate res d) (xs ++ ys)
        | none => applyPairs res (xs ++ ys))
      cases decodePair x with
      | some d => exact ih (dupdate res d)
      | none => exact ih res

/-- C10 witness: the reduction holds on the concrete truncated payload
of C3, and dropping its undecodable trailing pair leaves applyPairs
unchanged. -/
theorem c10_witness :
    parse_truncated_json "\x7b\"a\":\"1\",\"b\":\"2\""
      = applyPairs [] (scanPairs "\x7b\"a\":\"1\",\"b\":\"2\"") ∧
    applyPairs [] (["\"a\":\"1\"".data] ++ "\"c\":\"tru".data :: ["\"b\":\"2\"".data])
      = applyPairs [] (["\"a\":\"1\"".data] ++ ["\"b\":\"2\"".data]) :=
  ⟨c10_theorem.1 "\x7b\"a\":\"1\",\"b\":\"2\"",
   c10_theorem.2 [] ["\"a\":\"1\"".data] ["\"b\":\"2\"".data] "\"c\":\"tru".data (by decide)⟩

/-- C7: a comma is a pair boundary only outside strings at zero brace
and bracket depth: inside a string, or at nonzero brace depth, or at
nonzero bracket depth, the comma is appended to the current pair and
the finished-pair list is unchanged; at a boundary the current pair is
reset and its stripped form joins the list exactly when it holds a
colon.  On a concrete object whose value contains a bracketed list and
a comma inside a string, the scanner yields exactly the two pairs. -/
theorem c7_theorem :
    (∀ st : ScanSt, st.esc = false → st.inStr = true →
      (scanStep st ',').pairs = st.pairs ∧ (scanStep st ',').cur = st.cur ++ [',']) ∧
    (∀ st : ScanSt, st.esc = false → st.inStr = false → ¬ st.brace = 0 →
      (scanStep st ',').pairs = st.pairs ∧ (scanStep st ',').cur = st.cur ++ [',']) ∧
    (∀ st : ScanSt, st.esc = false → st.inStr = false → ¬ st.bracket = 0 →
      (scanStep st ',').pairs = st.pairs ∧ (scanStep st ',').cur = st.cur ++ [',']) ∧
    (∀ st : ScanSt, st.esc = false → st.inStr = false →
      st.brace = 0 → st.bracket = 0 →
      (scanStep st ',').cur = [] ∧
      (scanStep st ',').pairs = st.pairs ++
        (if (pyStripChars st.cur).contains ':' then [pyStripChars st.cur] else [])) ∧
    scanPairs "\x7b\"a\":[1,2,\"x,y\"],\"b\":2\x7d"
      = ["\"a\":[1,2,\"x,y\"]".data, "\"b\":2".data] := by
  refine ⟨?_, ?_, ?_, ?_, by decide⟩
  · intro st h1 h2
    constructor <;> simp [scanStep, h1, h2]
  · intro st h1 h2 h3
    constructor <;> simp [scanStep, h1, h2, h3]
  · intro st h1 h2 h3
    constructor <;> simp [scanStep, h1, h2, h3]
  · intro st h1 h2 h3 h4
    by_cases hm : ':' ∈ pyStripChars st.cur <;>
      constructor <;> simp [scanStep, h1, h2, h3, h4, hm]

/-- C7 witness: the boundary conditions exercised at concrete states:
a comma inside a string, at brace depth one, at bracket depth one, and
at a true boundary with a colon-holding current pair. -/
theorem c7_witness :
    (scanStep ⟨0, 0, true, false, ['a'], []⟩ ',').pairs = [] ∧
    (scanStep ⟨1, 0, false, false, ['b'], []⟩ ',').pairs = [] ∧
    (scanStep ⟨0, 1, false, false, ['c'], []⟩ ',').pairs = [] ∧
    (scanStep ⟨0, 0, false, false, "\"a\":1".data, []⟩ ',').cur = [] :=
  ⟨(c7_theorem.1 ⟨0, 0, true, false, ['a'], []⟩ rfl rfl).1,
   (c7_theorem.2.1 ⟨1, 0, false, false, ['b'], []⟩ rfl rfl (by decide)).1,
   (c7_theorem.2.2.1 ⟨0, 1, false, false, ['c'], []⟩ rfl rfl (by decide)).1,
   (c7_theorem.2.2.2.1 ⟨0, 0, false, false, "\"a\":1".data, []⟩ rfl rfl rfl rfl).1⟩

/-- C5: when a path exists in both the accumulated tree and a fragment,
the merge leaves that path mapped to the method dict updated in place
by the fragment: every method of the fragment wins wholesale, and
methods absent from the fragment keep their accumulated value. -/
theorem c5_theorem {base f m : Dict} {A cur fps ms : Dict} {path : String}
    (hbase : dget base "paths" = some (.obj A))
    (hcur : dget A path = some (.obj cur))
    (hf : dget f "paths" = some (.obj fps))
    (hndf : (keys fps).Nodup)
    (hms : dget fps path = some (.obj ms))
    (hndms : (keys ms).Nodup)
    (h : merge_oas_definitions base (.obj f) = .ok m) :
    ∃ A2 : Dict, dget m "paths" = some (.obj A2) ∧
      dget A2 path = some (.obj (dupdate cur ms)) ∧
      (∀ meth v, dget ms meth = some v → dget (dupdate cur ms) meth = some v) ∧
      (∀ meth, dget ms meth = none → dget (dupdate cur ms) meth = dget cur meth) := by
  obtain ⟨A2, h1, h2⟩ := merge_paths_lww hbase hcur hf hndf hms h
  exact ⟨A2, h1, h2, (dupdate_lookup hndms).1, (dupdate_lookup hndms).2⟩

/-- C5 witness: a base whose path /x carries get with summary old,
merged with a fragment carrying get with summary new, maps /x to the
new operation, and a method absent from the fragment would be kept. -/
theorem c5_witness :
    ∃ A2 : Dict,
      dget [("paths", Json.obj [("/x", Json.obj
          [("get", Json.obj [("summary", Json.str "new")])])]),
        ("components", Json.obj [])] "paths" = some (Json.obj A2) ∧
      dget A2 "/x" = some (Json.obj (dupdate
        [("get", Json.obj [("summary", Json.str "old")])]
        [("get", Json.obj [("summary", Json.str "new")])])) ∧
      (∀ meth v, dget [("get", Json.obj [("summary", Json.str "new")])] meth = some v →
        dget (dupdate [("get", Json.obj [("summary", Json.str "old")])]
          [("get", Json.obj [("summary", Json.str "new")])]) meth = some v) ∧
      (∀ meth, dget [("get", Json.obj [("summary", Json.str "new")])] meth = none →
        dget (dupdate [("get", Json.obj [("summary", Json.str "old")])]
          [("get", Json.obj [("summary", Json.str "new")])]) meth
          = dget [("get", Json.obj [("summary", Json.str "old")])] meth) :=
  @c5_theorem
    [("paths", Json.obj [("/x", Json.obj
        [("get", Json.obj [("summary", Json.str "old")])])]),
      ("components", Json.obj [])]
    [("paths", Json.obj [("/x", Json.obj
        [("get", Json.obj [("summary", Json.str "new")])])])]
    [("paths", Json.obj [("/x", Json.obj
        [("get", Json.obj [("summary", Json.str "new")])])]),
      ("components", Json.obj [])]
    [("/x", Json.obj [("get", Json.obj [("summary", Json.str "old")])])]
    [("get", Json.obj [("summary", Json.str "old")])]
    [("/x", Json.obj [("get", Json.obj [("summary", Json.str "new")])])]
    [("get", Json.obj [("summary", Json.str "new")])]
    "/x" rfl rfl rfl (by decide) rfl (by decide) rfl

/-- C6: merging the same well-shaped fragment twice gives the same tree
as merging it once: if the accumulated tree and the fragment have
object-valued sections with unique keys, a successful merge is
idempotent. -/
theorem c6_theorem {base f m : Dict} (hb : treeWF base) (hf : fragWF f)
    (h : merge_oas_definitions base (.obj f) = .ok m) :
    merge_oas_definitions m (.obj f) = .ok m :=
  merge_idem hb hf h

/-- C6 witness: idempotence at a concrete seeded base and a fragment
with one path and one components schema. -/
theorem c6_witness :
    merge_oas_definitions
      [("paths", Json.obj [("/x", Json.obj [("get", Json.obj [])])]),
       ("components", Json.obj [("schemas", Json.obj [("S", Json.obj [])])])]
      (Json.obj [("paths", Json.obj [("/x", Json.obj [("get", Json.obj [])])]),
        ("components", Json.obj [("schemas", Json.obj [("S", Json.obj [])])])])
      = .ok [("paths", Json.obj [("/x", Json.obj [("get", Json.obj [])])]),
         ("components", Json.obj [("schemas", Json.obj [("S", Json.obj [])])])] :=
  @c6_theorem [("paths", Json.obj []), ("components", Json.obj [])]
    [("paths", Json.obj [("/x", Json.obj [("get", Json.obj [])])]),
     ("components", Json.obj [("schemas", Json.obj [("S", Json.obj [])])])]
    [("paths", Json.obj [("/x", Json.obj [("get", Json.obj [])])]),
     ("components", Json.obj [("schemas", Json.obj [("S", Json.obj [])])])]
    (treeWFb_sound (by decide)) (fragWFb_sound (by decide)) rfl

/-- C6 counterexample to the unconditional claim: a fragment whose
paths section maps /x to a string merges successfully into an empty
seeded tree, but merging it a second time raises TypeError, because
the stored string has no update method; so the merge is not idempotent
without a shape assumption on the fragment. -/
theorem c6_counterexample :
    merge_oas_definitions [("paths", Json.obj []), ("components", Json.obj [])]
      (Json.obj [("paths", Json.obj [("/x", Json.str "oops")])])
      = .ok [("paths", Json.obj [("/x", Json.str "oops")]), ("components", Json.obj [])] ∧
    merge_oas_definitions
      [("paths", Json.obj [("/x", Json.str "oops")]), ("components", Json.obj [])]
      (Json.obj [("paths", Json.obj [("/x", Json.str "oops")])])
      = .error .typeError :=
  ⟨rfl, rfl⟩

/-- C8: the seeded tree always has object-valued paths and components
sections, and a successful merge preserves that invariant, so every
accumulated tree seen by the loop has both sections. -/
theorem c8_theorem :
    (∀ frag : Dict, hasSectionsB (seedFrom frag) = true) ∧
    (∀ (base : Dict) (new : Json) (m : Dict), hasSectionsB base = true →
      merge_oas_definitions base new = .ok m → hasSectionsB m = true) :=
  ⟨hasSectionsB_seedFrom,
   fun _ _ _ hs h => merge_hasSections h hs⟩

/-- C8 witness: the invariant at the seed of a one-key fragment and
across a concrete successful merge that inserts a new path. -/
theorem c8_witness :
    hasSectionsB (seedFrom [("info", Json.str "i")]) = true ∧
    hasSectionsB [("paths", Json.obj [("/x", Json.obj [])]),
      ("components", Json.obj [])] = true :=
  ⟨c8_theorem.1 [("info", Json.str "i")],
   c8_theorem.2 [("paths", Json.obj []), ("components", Json.obj [])]
     (Json.obj [("paths", Json.obj [("/x", Json.obj [])])])
     [("paths", Json.obj [("/x", Json.obj [])]), ("components", Json.obj [])]
     rfl rfl⟩

/-- Start-page properties for a crawl with no reference groups and no
docs groups: only the fragment under oasDefinition varies. -/
def startPropsOf (frag : Dict) : Dict :=
  [("sidebars", Json.obj [("refs", Json.arr []), ("docs", Json.arr [])]),
   ("oasDefinition", Json.obj frag)]

/-- Environment serving the start page from cache and nothing else. -/
def envOfStart (frag : Dict) : String → RawPage := fun url =>
  if url = "s" then RawPage.cachedProps (startPropsOf frag) else RawPage.notFoundCached

/-- C1 (amended): the start fragment is not replayed into the seeded
tree: with no reference pages at all, the run ends with exactly the
seed, whose paths and components are the empty dicts, whatever the
start fragment contained. -/
theorem c1_theorem (frag : Dict) :
    mainModel "s" (envOfStart frag) = ([], .ok (stripKeys (seedFrom frag))) :=
  rfl

/-- C1 counterexample to the replay claim: a start fragment carrying a
path /x ends the crawl with an empty paths section, so the fragment
contents are dropped by the reset at lines 200 and 201, not merged
back. -/
theorem c1_counterexample :
    (mainModel "s" (envOfStart
        [("paths", Json.obj [("/x", Json.obj [("get", Json.obj [])])]),
         ("components", Json.obj [])])).2
      = .ok [("paths", Json.obj []), ("components", Json.obj [])] ∧
    dget [("paths", Json.obj [("/x", Json.obj [("get", Json.obj [])])]),
        ("components", Json.obj [])] "paths"
      = some (Json.obj [("/x", Json.obj [("get", Json.obj [])])]) ∧
    dget ([("/x", Json.obj [("get", Json.obj [])])] : Dict) "/x" ≠ none ∧
    dget ([] : Dict) "/x" = none :=
  ⟨rfl, rfl, by decide, rfl⟩

/-- C2: ExtractionFailure aborts the run but missing pages are skipped:
a missing ssr-props marker raises AssertionError, a truncated recovery
without oasDefinition raises AssertionError, any raised error aborts
the page loop at once, while a 404-cached page yields None and the
loop records the fetch and continues with the tree unchanged. -/
theorem c2_theorem :
    (∀ (t : Bool) (payload : String),
      fetch_ssr_props (.page false t payload) = .error .assertionError) ∧
    (∀ payload : String,
      (dget (parse_truncated_json payload) "oasDefinition").isSome = false →
      fetch_ssr_props (.page true true payload) = .error .assertionError) ∧
    (∀ (env : String → RawPage) (urlBase : String) (nonRef : List Json) (pg : Json)
      (rest : List Json) (oas : Dict) (us : List String) (e : CrawlErr),
      pageStep env urlBase nonRef pg oas = (us, .error e) →
      crawlPages env urlBase nonRef (pg :: rest) oas = (us, .error e)) ∧
    (∀ (env : String → RawPage) (urlBase : String) (nonRef : List Json)
      (s t : String) (oas : Dict),
      Json.str s ∉ nonRef →
      env (urlBase ++ s) = RawPage.notFoundCached →
      pageStep env urlBase nonRef (.obj [("slug", .str s), ("title", .str t)]) oas
        = ([urlBase ++ s], .ok none)) ∧
    (∀ (env : String → RawPage) (urlBase : String) (nonRef : List Json) (pg : Json)
      (rest : List Json) (oas : Dict) (us : List String),
      pageStep env urlBase nonRef pg oas = (us, .ok none) →
      crawlPages env urlBase nonRef (pg :: rest) oas
        = (us ++ (crawlPages env urlBase nonRef rest oas).1,
           (crawlPages env urlBase nonRef rest oas).2)) :=
  ⟨fetch_marker_missing,
   fun _ h => fetch_recovery_incomplete h,
   fun _ _ _ _ rest _ _ _ h => crawlPages_abort rest h,
   fun _ _ _ _ _ _ hmem henv => pageStep_skip_fetch_failure hmem henv,
   fun _ _ _ _ rest _ _ h => crawlPages_skip rest h⟩

/-- Environment with every URL 404-cached, for the skip conjuncts. -/
def envW2 : String → RawPage := fun _ => RawPage.notFoundCached

/-- C2 witness: the failure and skip behaviors at concrete inputs: a
markerless page, a truncated payload without oasDefinition, an abort
of a two-page loop, a skipped 404 page, and the loop continuing past
it. -/
theorem c2_witness :
    fetch_ssr_props (RawPage.page false true "x") = .error .assertionError ∧
    fetch_ssr_props (RawPage.page true true "no-oas") = .error .assertionError ∧
    crawlPages envW2 "s/" [] (Json.obj [] :: [Json.null]) [] = ([], .error .keyError) ∧
    pageStep envW2 "s/" [] (Json.obj [("slug", Json.str "a"), ("title", Json.str "A")]) []
      = (["s/" ++ "a"], .ok none) ∧
    crawlPages envW2 "s/" []
        (Json.obj [("slug", Json.str "a"), ("title", Json.str "A")] :: [Json.null]) []
      = (["s/" ++ "a"] ++ (crawlPages envW2 "s/" [] [Json.null] []).1,
         (crawlPages envW2 "s/" [] [Json.null] []).2) :=
  ⟨c2_theorem.1 true "x",
   c2_theorem.2.1 "no-oas" (by decide),
   c2_theorem.2.2.1 envW2 "s/" [] (Json.obj []) [Json.null] [] [] CrawlErr.keyError rfl,
   c2_theorem.2.2.2.1 envW2 "s/" [] "a" "A" [] (by decide) rfl,
   c2_theorem.2.2.2.2 envW2 "s/" []
     (Json.obj [("slug", Json.str "a"), ("title", Json.str "A")]) [Json.null] []
     ["s/" ++ "a"] rfl⟩

/-- Environment for the C2 counterexample: the start page lists two
reference pages a and b, the first fetch hits a markerless page. -/
def envC2 : String → RawPage := fun url =>
  if url = "s" then RawPage.cachedProps
    [("sidebars", Json.obj [("refs", Json.arr [Json.obj [("pages", Json.arr
        [Json.obj [("slug", Json.str "a"), ("title", Json.str "A")],
         Json.obj [("slug", Json.str "b"), ("title", Json.str "B")]])]]),
      ("docs", Json.arr [])]),
     ("oasDefinition", Json.obj [])]
  else if url = "s/a" then RawPage.page false false ""
  else RawPage.notFoundCached

/-- C2 counterexample to skip-and-continue on extraction failure: with
page a markerless, the run fetches only a and stops with the
AssertionError; page b is never visited, so an ExtractionFailure is
not skipped but aborts the whole crawl. -/
theorem c2_counterexample :
    mainModel "s" envC2 = (["s/a"], .error .assertionError) := rfl

/-- C4: no page whose slug was collected from the docs sidebars as
non-reference is ever fetched: its URL never appears in the trace of
fetched URLs of the whole run. -/
theorem c4_theorem {startUrl : String} {env : String → RawPage} {tr : List String}
    {out : Except CrawlErr Dict} {sd : SetupData} {s : String}
    (hm : mainModel startUrl env = (tr, out))
    (hsu : mainSetup startUrl env = .ok sd)
    (hs : Json.str s ∈ sd.nonRef) :
    sd.urlBase ++ s ∉ tr := by
  intro hmem
  unfold mainModel at hm
  rw [hsu] at hm
  replace hm : (match pyIter sd.refs with
    | .error e => (([] : List String), (.error e : Except CrawlErr Dict))
    | .ok refs =>
      match crawlRefs env sd.urlBase sd.nonRef refs sd.oas0 with
      | (tr2, .ok oas) => (tr2, .ok (stripKeys oas))
      | (tr2, .error e) => (tr2, .error e)) = (tr, out) := hm
  cases hit : pyIter sd.refs with
  | error e =>
    rw [hit] at hm
    have h0 : ([] : List String) = tr := congrArg Prod.fst hm
    rw [← h0] at hmem
    simp at hmem
  | ok refs =>
    rw [hit] at hm
    replace hm : (match crawlRefs env sd.urlBase sd.nonRef refs sd.oas0 with
      | (tr2, .ok oas) => (tr2, Except.ok (stripKeys oas))
      | (tr2, .error e) => (tr2, Except.error e)) = (tr, out) := hm
    rcases hcr : crawlRefs env sd.urlBase sd.nonRef refs sd.oas0 with ⟨tr2, r⟩
    rw [hcr] at hm
    have htr : tr2 = tr := by
      cases r with
      | ok oas => exact congrArg Prod.fst hm
      | error e => exact congrArg Prod.fst hm
    have hcrt := @crawlRefs_trace env sd.urlBase sd.nonRef refs sd.oas0
    rw [hcr] at hcrt
    rw [← htr] at hmem
    obtain ⟨s2, heq, hnm⟩ := hcrt _ hmem
    have hss : s = s2 := string_append_cancel heq
    exact hnm (hss ▸ hs)

/-- Environment for the C4 witness: the docs sidebars mark slug n as
non-reference and the single reference group lists the same slug. -/
def env4 : String → RawPage := fun url =>
  if url = "s" then RawPage.cachedProps
    [("sidebars", Json.obj
       [("refs", Json.arr [Json.obj [("pages", Json.arr
           [Json.obj [("slug", Json.str "n"), ("title", Json.str "N")]])]]),
        ("docs", Json.arr [Json.obj [("pages", Json.arr
           [Json.obj [("isReference", Json.bool false), ("slug", Json.str "n")]])]])]),
     ("oasDefinition", Json.obj [])]
  else RawPage.notFoundCached

/-- C4 witness: in that run the trace is empty, so the URL of the
non-reference page n was never fetched. -/
theorem c4_witness : ("s/" ++ "n") ∉ ([] : List String) :=
  @c4_theorem ("s") env4 []
    (.ok [("paths", Json.obj []), ("components", Json.obj [])])
    ⟨Json.arr [Json.obj [("pages", Json.arr
        [Json.obj [("slug", Json.str "n"), ("title", Json.str "N")]])]],
      [Json.str "n"], "s/", [("paths", Json.obj []), ("components", Json.obj [])]⟩
    "n" rfl rfl (by decide)

/-- C9: whenever the run completes normally, the emitted tree has
neither the vendor key x-readme-fauxas nor the record key _id. -/
theorem c9_theorem {startUrl : String} {env : String → RawPage} {tr : List String}
    {d : Dict} (h : mainModel startUrl env = (tr, .ok d)) :
    dget d "x-readme-fauxas" = none ∧ dget d "_id" = none := by
  obtain ⟨oas, hd⟩ := mainModel_ok_strip h
  rw [hd]
  exact ⟨dget_stripKeys_fauxas oas, dget_stripKeys_id oas⟩

/-- C9 witness: a start fragment carrying both bookkeeping keys ends in
a tree where both lookups miss. -/
theorem c9_witness :
    dget [("info", Json.str "x"), ("paths", Json.obj []),
      ("components", Json.obj [])] "x-readme-fauxas" = none ∧
    dget [("info", Json.str "x"), ("paths", Json.obj []),
      ("components", Json.obj [])] "_id" = none :=
  @c9_theorem ("s")
    (envOfStart [("x-readme-fauxas", Json.bool true), ("_id", Json.str "i"),
      ("info", Json.str "x")])
    []
    [("info", Json.str "x"), ("paths", Json.obj []), ("components", Json.obj [])]
    rfl
